import Mathlib

/-!
Verification of the extraction / snapshot-delta core of the
`zoopla-co-uk-scraper` repository (files `src/extractors/utils_filters.py`
and `src/extractors/zoopla_parser.py`), as a shallow embedding in Lean 4.

Listings travel through the pipeline as Python dicts (`Dict[str, Any]`);
we model a JSON-like value type `Val` with Python truthiness and `str()`
conversion, and a listing as an association list from field names to
values (dict keys are unique in this program, first-match lookup agrees
with dict lookup).
-/

namespace Zoopla

/-- Emptiness of a string (structural, reduces by evaluation). -/
def pyEmpty (s : String) : Bool := s.data.isEmpty

/-- Python values that occur in a listing dict: `None`, strings, ints,
lists and dicts (dataclass `asdict` output only contains these). -/
inductive Val where
  | vNone : Val
  | vStr : String → Val
  | vInt : Int → Val
  | vList : List Val → Val
  | vDict : List (String × Val) → Val
deriving Repr

/-- Python truthiness (`if value:`): `None`, `""`, `0`, `[]`, `{}` are
falsy, everything else truthy. -/
def Val.truthy : Val → Bool
  | .vNone => false
  | .vStr s => !(pyEmpty s)
  | .vInt n => n != 0
  | .vList vs => !vs.isEmpty
  | .vDict kvs => !kvs.isEmpty

mutual

/-- Python `repr` for `Val` (used for values nested inside containers). -/
def pyRepr : Val → String
  | Val.vNone => "None"
  | Val.vStr s => "'" ++ s ++ "'"
  | Val.vInt n => toString n
  | Val.vList vs => "[" ++ pyReprL vs ++ "]"
  | Val.vDict kvs => "\x7b" ++ pyReprD kvs ++ "\x7d"

/-- Comma-separated `repr` of a list of values. -/
def pyReprL : List Val → String
  | [] => ""
  | [v] => pyRepr v
  | v :: rest => pyRepr v ++ ", " ++ pyReprL rest

/-- Comma-separated `repr` of dict entries. -/
def pyReprD : List (String × Val) → String
  | [] => ""
  | [(k, v)] => "'" ++ k ++ "': " ++ pyRepr v
  | (k, v) :: rest => "'" ++ k ++ "': " ++ pyRepr v ++ ", " ++ pyReprD rest

end

/-- Python `str()` conversion as used by the f-string in `_build_id_key`:
a string converts to itself, anything else to its `repr`. -/
def Val.pyStr : Val → String
  | .vStr s => s
  | v => pyRepr v

/-- A listing record: a Python dict, keys unique. -/
def Listing := List (String × Val)

instance : Membership (String × Val) Listing := inferInstanceAs (Membership _ (List _))

/-- `listing.get(field)` — `none` when the key is absent. -/
def Listing.get (l : Listing) (field : String) : Option Val :=
  List.lookup field l

/-- Truthiness of `listing.get(field)` (absent key is falsy, like `None`). -/
def Listing.fieldTruthy (l : Listing) (field : String) : Bool :=
  match l.get field with
  | some v => v.truthy
  | none => false

/-!
### `utils_filters.py`
-/

/-- `_build_id_key(listing, id_fields)`: for the first field in `id_fields`
whose value is truthy, return `f"{field}:{value}"`; otherwise `None`. -/
def build_id_key (listing : Listing) (id_fields : List String) : Option String :=
  match id_fields with
  | [] => none
  | field :: rest =>
    match listing.get field with
    | some value =>
      if value.truthy then some (field ++ ":" ++ value.pyStr)
      else build_id_key listing rest
    | none => build_id_key listing rest

/-- Loop of `deduplicate_listings`: `seen` is the set of already-seen keys;
a listing with no key is always kept, a listing whose key is in `seen` is
dropped, otherwise it is kept and its key added to `seen`. -/
def dedupGo (id_fields : List String) (seen : List String) :
    List Listing → List Listing
  | [] => []
  | l :: rest =>
    match build_id_key l id_fields with
    | none => l :: dedupGo id_fields seen rest
    | some k =>
      if k ∈ seen then dedupGo id_fields seen rest
      else l :: dedupGo id_fields (k :: seen) rest

/-- `deduplicate_listings(listings, id_fields=("uprn", "url"))`. -/
def deduplicate_listings (listings : List Listing)
    (id_fields : List String := ["uprn", "url"]) : List Listing :=
  dedupGo id_fields [] listings

/-- Insert-or-update on an association list, keeping the position of an
existing key (Python dict assignment `index[key] = listing`). -/
def insertUpdate (idx : List (String × Listing)) (k : String) (l : Listing) :
    List (String × Listing) :=
  match idx with
  | [] => [(k, l)]
  | (k', l') :: rest =>
    if k' = k then (k, l) :: rest else (k', l') :: insertUpdate rest k l

/-- Index construction of `compute_deltas`: for each listing with a truthy
identity key, `index[key] = listing` (later entries for a duplicate key
overwrite earlier ones, keeping the first position — Python dict order). -/
def buildIndex (listings : List Listing) (id_fields : List String) :
    List (String × Listing) :=
  listings.foldl
    (fun idx l =>
      match build_id_key l id_fields with
      | some k => insertUpdate idx k l
      | none => idx)
    []

/-- `compute_deltas(current, previous, id_fields)`: `new` = entries of the
current index whose key is absent from the previous index, `delisted` =
entries of the previous index whose key is absent from the current index. -/
def compute_deltas (current previous : List Listing)
    (id_fields : List String := ["uprn", "url"]) :
    List Listing × List Listing :=
  let prev_index := buildIndex previous id_fields
  let curr_index := buildIndex current id_fields
  ((curr_index.filter (fun kl => (List.lookup kl.1 prev_index).isNone)).map Prod.snd,
   (prev_index.filter (fun kl => (List.lookup kl.1 curr_index).isNone)).map Prod.snd)

/-- JSON documents, for the snapshot file. -/
inductive Json where
  | null : Json
  | bool : Bool → Json
  | num : Int → Json
  | str : String → Json
  | arr : List Json → Json
  | obj : List (String × Json) → Json

/-- What `load_snapshot` can observe about the backing file: the path does
not exist, opening/reading raises, `json.load` raises (invalid JSON), or a
parsed JSON document. -/
inductive FileContent where
  | absent : FileContent
  | readError : FileContent
  | invalidJson : FileContent
  | json : Json → FileContent

/-- Whether the file holds a JSON list. -/
def FileContent.isList : FileContent → Bool
  | .json (Json.arr _) => true
  | _ => false

/-- `load_snapshot(path)`: `[]` when the file is missing; under the
`try`, `[]` when reading or JSON parsing raises, the parsed list when the
document is a list, `[]` otherwise. Total — no exception escapes. -/
def load_snapshot : FileContent → List Json
  | .absent => []
  | .readError => []
  | .invalidJson => []
  | .json data =>
    match data with
    | Json.arr xs => xs
    | _ => []

/-!
### String helpers shared by `zoopla_parser.py` (Python semantics, ASCII)
-/

/-- Python `\s` / `str.strip()` whitespace (ASCII part). -/
def isSpacePy (c : Char) : Bool :=
  c == ' ' || c == '\t' || c == '\n' || c == '\r' || c == '\x0b' || c == '\x0c'

/-- Python `str.strip()` on a character list. -/
def pyStrip (l : List Char) : List Char :=
  ((l.dropWhile isSpacePy).reverse.dropWhile isSpacePy).reverse

/-- Python `str.strip()`. -/
def pyStripS (s : String) : String := String.mk (pyStrip s.data)

/-- Bool list-prefix test. -/
def isPrefixL : List Char → List Char → Bool
  | [], _ => true
  | _ :: _, [] => false
  | a :: as, b :: bs => a == b && isPrefixL as bs

/-- Substring containment on character lists (Python `sub in s`). -/
def pyInL (sub : List Char) : List Char → Bool
  | [] => isPrefixL sub []
  | c :: rest => isPrefixL sub (c :: rest) || pyInL sub rest

/-- Python `sub in s` on strings. -/
def pyIn (sub s : String) : Bool := pyInL sub.data s.data

/-- Python `s.startswith(pre)`. -/
def pyStartsWith (pre s : String) : Bool := isPrefixL pre.data s.data

/-- Python `str.upper()` (ASCII). -/
def pyUpper (s : String) : String := String.mk (s.data.map Char.toUpper)

/-- Python `str.lower()` (ASCII). -/
def pyLower (s : String) : String := String.mk (s.data.map Char.toLower)

/-!
### `_extract_postcode`: the regex `\b[A-Z]{1,2}\d{1,2}[A-Z]?\s*\d[A-Z]{2}\b`

`re.search` over the uppercased address text: positions are tried left to
right; at a position, greedy quantifiers backtrack.  The matcher below is
that engine specialised to this one pattern.
-/

/-- `[A-Z]` (ASCII codes 65-90). -/
def isUpperA (c : Char) : Bool := 65 ≤ c.toNat && c.toNat ≤ 90

/-- `\d` (ASCII decimal digit). -/
def isDigitA (c : Char) : Bool := 48 ≤ c.toNat && c.toNat ≤ 57

/-- Regex `\w` (ASCII): letters, digits, underscore — for `\b`. -/
def isWordA (c : Char) : Bool := c.isAlpha || isDigitA c || c == '_'

/-- The trailing `\b` after a word character: the remaining input is
empty or starts with a non-word character. -/
def bndHead : List Char → Bool
  | [] => true
  | c :: _ => !isWordA c

/-- The leading `\b` before a word character: the preceding character
(`none` = start of text) is absent or a non-word character. -/
def bndOk : Option Char → Bool
  | none => true
  | some c => !isWordA c

/-- `\d[A-Z]{2}\b` at the head of the input; returns the matched chars. -/
def matchFinal : List Char → Option (List Char)
  | d :: a :: b :: rest =>
    if isDigitA d && isUpperA a && isUpperA b && bndHead rest then
      some [d, a, b]
    else none
  | _ => none

/-- `\s*\d[A-Z]{2}\b`.  The greedy `\s*` takes the maximal whitespace run;
backtracking to a shorter run cannot help, because the following `\d`
would then have to match a whitespace character. -/
def matchSpaceTail (cs : List Char) : Option (List Char) :=
  match matchFinal (cs.dropWhile isSpacePy) with
  | some m => some (cs.takeWhile isSpacePy ++ m)
  | none => none

/-- `[A-Z]?\s*\d[A-Z]{2}\b`: greedy — try consuming one letter first,
then fall back to consuming none. -/
def matchOptLetter (cs : List Char) : Option (List Char) :=
  match cs with
  | c :: rest =>
    if isUpperA c then
      match matchSpaceTail rest with
      | some m => some (c :: m)
      | none => matchSpaceTail cs
    else matchSpaceTail cs
  | [] => matchSpaceTail cs

/-- The one-digit continuation of `\d{1,2}`: match the remainder of the
pattern after a single digit `d1`. -/
def matchDigits1 (d1 : Char) (rest1 : List Char) : Option (List Char) :=
  match matchOptLetter rest1 with
  | some m => some (d1 :: m)
  | none => none

/-- `\d{1,2}[A-Z]?\s*\d[A-Z]{2}\b`: greedy — try two digits first, fall
back to one digit. -/
def matchDigits : List Char → Option (List Char)
  | [] => none
  | [d1] => if isDigitA d1 then matchDigits1 d1 [] else none
  | d1 :: d2 :: rest2 =>
    if isDigitA d1 then
      if isDigitA d2 then
        match matchOptLetter rest2 with
        | some m => some (d1 :: d2 :: m)
        | none => matchDigits1 d1 (d2 :: rest2)
      else matchDigits1 d1 (d2 :: rest2)
    else none

/-- The one-letter continuation of `[A-Z]{1,2}`: match the remainder of
the pattern after a single letter `l1`. -/
def matchLetters1 (l1 : Char) (rest1 : List Char) : Option (List Char) :=
  match matchDigits rest1 with
  | some m => some (l1 :: m)
  | none => none

/-- The full pattern minus the leading `\b`:
`[A-Z]{1,2}\d{1,2}[A-Z]?\s*\d[A-Z]{2}\b`, greedy — try two letters first,
fall back to one (a one- or two-character input can never match, since the
pattern needs at least four characters). -/
def matchLetters : List Char → Option (List Char)
  | [] => none
  | [_] => none
  | l1 :: l2 :: rest2 =>
    if isUpperA l1 then
      if isUpperA l2 then
        match matchDigits rest2 with
        | some m => some (l1 :: l2 :: m)
        | none => matchLetters1 l1 (l2 :: rest2)
      else matchLetters1 l1 (l2 :: rest2)
    else none

/-- `re.search`: try the pattern at each position left to right; `prev` is
the character before the current position, for the leading `\b` (the first
pattern character is a word character, so the boundary holds iff `prev` is
absent or a non-word character). -/
def reSearch (prev : Option Char) (cs : List Char) : Option (List Char) :=
  match (if bndOk prev then matchLetters cs else none) with
  | some m => some m
  | none =>
    match cs with
    | [] => none
    | c :: rest => reSearch (some c) rest

/-- `_extract_postcode(text)`: `None` on falsy input, else search the
pattern in `text.upper()` and return `match.group(0).strip()`. -/
def extract_postcode (text : String) : Option String :=
  if pyEmpty text then none
  else
    match reSearch none (pyUpper text).data with
    | some m => some (String.mk (pyStrip m))
    | none => none

/-!
### `zoopla_parser.py`: the scraper

HTML tags are modelled by what the parsing code observes of them through
BeautifulSoup: `select_one(sel).get_text(...)` per selector, the first
`a[href]`, `select(sel)` texts, `img[src]` values, script bodies.  The
genuinely external capabilities (the HTTP fetch, the BeautifulSoup text
parser, `urllib.parse.urljoin` / `urlparse(...).scheme`, and the
JSON-in-script coordinate heuristic of `_extract_coordinates_from_scripts`,
which none of the verified properties inspect) are parameters bundled in
`Ext`; every theorem below holds for an arbitrary instantiation, in
particular for the source's own.
-/

/-- A listing-card tag: `select_one(sel)` text (some t iff an element
matches `sel`, with text `t`, possibly empty), and the first `a[href]`. -/
structure Card where
  selectOne : String → Option String
  firstAHref : Option String

/-- A parsed page (search page or detail page) as observed by the code. -/
structure Doc where
  select : String → List Card
  selectOne : String → Option String
  epcImgSrc : Option String
  selectTexts : String → List String
  imgSrcs : List String
  scriptBodies : List String

/-- External capabilities: `_safe_get` (`none` = request failed),
BeautifulSoup parsing, `urljoin`, `urlparse(base).scheme`, and the
coordinate-extraction heuristic applied to the page's script bodies. -/
structure Ext where
  fetch : String → Option String
  parseDoc : String → Doc
  urljoin : String → String → String
  scheme : String → String
  coordsFromScripts : List String → Option (String × String)

/-- `_extract_text(root, selectors)`: first selector whose element yields
non-empty text wins; `root` is represented by its `select_one` capability. -/
def extract_text (selectOne : String → Option String) :
    List String → Option String
  | [] => none
  | sel :: rest =>
    match selectOne sel with
    | some text => if !(pyEmpty text) then some text else extract_text selectOne rest
    | none => extract_text selectOne rest

/-- Value of a digit-only character list as a natural number (Python
`int(digits)` for a non-empty all-digit string never fails). -/
def digitsToNat (l : List Char) : Nat :=
  l.foldl (fun n c => 10 * n + (c.toNat - 48)) 0

/-- `_extract_int_from_text(root, selectors)`: keep only digit characters
of the extracted text; absent if none remain. -/
def extract_int_from_text (selectOne : String → Option String)
    (selectors : List String) : Option Nat :=
  match extract_text selectOne selectors with
  | none => none
  | some text =>
    if pyEmpty text then none
    else
      let digits := text.data.filter Char.isDigit
      if digits.isEmpty then none else some (digitsToNat digits)

/-- `_normalize_url(href, base)`: strip, rewrite protocol-relative `//…`
with the base's scheme, then resolve against `base`. -/
def normalize_url (ext : Ext) (href : String) (base : String) : String :=
  let href := pyStripS href
  let href := if pyStartsWith "//" href then ext.scheme base ++ ":" ++ href else href
  ext.urljoin base href

/-- The `PropertyListing` dataclass.  `title : String` (not optional — the
card phase fills it with `title or ""`); every other descriptive field is
an explicit `Option` or list, as in the source. -/
structure PropertyListing where
  title : String
  uprn : Option String
  address : Option String
  epc : Option String
  epcRating : Option String
  bedrooms : Option Nat
  bathrooms : Option Nat
  livingroom : Option Nat
  price : Option String
  description : Option String
  coordinates : Option (String × String)
  category : Option String
  type_ : Option String
  agent : Option String
  agentPhone : Option String
  images : List String
  priceHistory : List Val
  pointsOfInterest : List Val
  propertyType : Option String
  postalCode : Option String
  features : List String
  url : Option String

/-- `dataclasses.asdict` on a `PropertyListing`: `Option String` fields. -/
def optStr : Option String → Val
  | some s => Val.vStr s
  | none => Val.vNone

/-- `asdict` conversion of optional int fields. -/
def optNat : Option Nat → Val
  | some n => Val.vInt (Int.ofNat n)
  | none => Val.vNone

/-- `asdict` conversion of the coordinates dict. -/
def coordsVal : Option (String × String) → Val
  | some c => Val.vDict [("latitude", Val.vStr c.1), ("longitude", Val.vStr c.2)]
  | none => Val.vNone

/-- `dataclasses.asdict(summary)`: the listing dict, keys in field order. -/
def toDict (p : PropertyListing) : Listing :=
  [("title", Val.vStr p.title),
   ("uprn", optStr p.uprn),
   ("address", optStr p.address),
   ("epc", optStr p.epc),
   ("epcRating", optStr p.epcRating),
   ("bedrooms", optNat p.bedrooms),
   ("bathrooms", optNat p.bathrooms),
   ("livingroom", optNat p.livingroom),
   ("price", optStr p.price),
   ("description", optStr p.description),
   ("coordinates", coordsVal p.coordinates),
   ("category", optStr p.category),
   ("type", optStr p.type_),
   ("agent", optStr p.agent),
   ("agentPhone", optStr p.agentPhone),
   ("images", Val.vList (p.images.map Val.vStr)),
   ("priceHistory", Val.vList p.priceHistory),
   ("pointsOfInterest", Val.vList p.pointsOfInterest),
   ("propertyType", optStr p.propertyType),
   ("postalCode", optStr p.postalCode),
   ("features", Val.vList (p.features.map Val.vStr)),
   ("url", optStr p.url)]

/-- `_parse_listing_card(card, base_page_url)` — the card phase. -/
def parse_listing_card (ext : Ext) (card : Card) (base_page_url : String) :
    PropertyListing :=
  let title := extract_text card.selectOne
    ["h2[data-testid*=listing-title]", "h2", "h3"]
  let price := extract_text card.selectOne
    ["p[data-testid*=listing-price]", "div[data-testid*=listing-price]",
     "span[class*=price]"]
  let address := extract_text card.selectOne
    ["p[data-testid*=listing-description]", "address", "span[class*=address]"]
  let url := match card.firstAHref with
    | some href => some (normalize_url ext href base_page_url)
    | none => none
  let category_text := extract_text card.selectOne
    ["span[data-testid*=badge]", "span[class*=category]"]
  let category := match category_text with
    | some t =>
      if pyEmpty t then none
      else
        let lowered := pyLower t
        if pyIn "rent" lowered then some "rent"
        else if pyIn "sale" lowered || pyIn "buy" lowered then some "sale"
        else none
    | none => none
  let property_type_text := extract_text card.selectOne
    ["span[class*=property-type]", "span[data-testid*=property-type]"]
  let property_type := match property_type_text with
    | some t => if pyEmpty t then none else some (pyStripS t)
    | none => none
  let agent := extract_text card.selectOne
    ["p[data-testid*=listing-agent]", "span[class*=agent]"]
  let bedrooms := extract_int_from_text card.selectOne
    ["li[data-testid*=bed]", "span[class*=bedrooms]"]
  let bathrooms := extract_int_from_text card.selectOne
    ["li[data-testid*=bath]", "span[class*=bathrooms]"]
  { title := title.getD "",
    uprn := none,
    address := address,
    epc := none,
    epcRating := none,
    bedrooms := bedrooms,
    bathrooms := bathrooms,
    livingroom := none,
    price := price,
    description := none,
    coordinates := none,
    category := category,
    type_ := property_type,
    agent := agent,
    agentPhone := none,
    images := [],
    priceHistory := [],
    pointsOfInterest := [],
    propertyType := property_type,
    postalCode := none,
    features := [],
    url := url }

/-!
### `_enrich_from_detail_page`, split into its sequential steps
-/

/-- Description step: set `description` to the stripped text if found. -/
def enrichDescription (soup : Doc) (l : PropertyListing) : PropertyListing :=
  match extract_text soup.selectOne
      ["p[data-testid*=listing-description]", "div[data-testid*=description] p",
       "div[class*=description] p"] with
  | some d => if pyEmpty d then l else { l with description := some (pyStripS d) }
  | none => l

/-- EPC-rating step. -/
def enrichEpcRating (soup : Doc) (l : PropertyListing) : PropertyListing :=
  match extract_text soup.selectOne
      ["span[data-testid*=epc-rating]", "span[class*=epc-rating]"] with
  | some r => if pyEmpty r then l else { l with epcRating := some (pyStripS r) }
  | none => l

/-- EPC-certificate-image step (`img[src*='epc']`, truthy `src` only). -/
def enrichEpcImg (ext : Ext) (base_url : String) (soup : Doc)
    (l : PropertyListing) : PropertyListing :=
  match soup.epcImgSrc with
  | some src =>
    if pyEmpty src then l
    else { l with epc := some (normalize_url ext src base_url) }
  | none => l

/-- Agent-phone step (prefers a `tel:` link). -/
def enrichAgentPhone (soup : Doc) (l : PropertyListing) : PropertyListing :=
  match extract_text soup.selectOne
      ["a[href^='tel:']", "span[class*=agent-phone]"] with
  | some p => if pyEmpty p then l else { l with agentPhone := some (pyStripS p) }
  | none => l

/-- Address + postal-code step: the detail-page address overwrites the
card-phase address when found; `postalCode` is then assigned
unconditionally from `_extract_postcode(address or "")`, where `address`
is the locally extracted detail-page address (not the listing field). -/
def enrichAddress (soup : Doc) (l : PropertyListing) : PropertyListing :=
  let address := extract_text soup.selectOne ["address", "p[data-testid*=address]"]
  let l' := match address with
    | some a => if pyEmpty a then l else { l with address := some (pyStripS a) }
    | none => l
  { l' with postalCode := extract_postcode (address.getD "") }

/-- Inner accumulation of the features loop: append `text` when non-empty
and not already collected. -/
def addFeature (features : List String) (text : String) : List String :=
  if !(pyEmpty text) && !features.contains text then features ++ [text] else features

/-- Features step: iterate both selectors in order, collecting item texts
first-seen, exact duplicates suppressed; assigned unconditionally. -/
def enrichFeatures (soup : Doc) (l : PropertyListing) : PropertyListing :=
  let texts := (["ul[data-testid*=features] li", "ul[class*=features] li"].map
    soup.selectTexts).flatten
  { l with features := texts.foldl addFeature [] }

/-- `list(dict.fromkeys(xs))`: deduplicate keeping first occurrences. -/
def dedupFirst (l : List String) : List String :=
  l.foldl (fun acc s => if acc.contains s then acc else acc ++ [s]) []

/-- Images step: keep `img[src]` values containing a CDN hostname
substring, resolve against the scraper base URL, deduplicate. -/
def enrichImages (ext : Ext) (base_url : String) (soup : Doc)
    (l : PropertyListing) : PropertyListing :=
  let images := (soup.imgSrcs.filter
    (fun src => pyIn "lid.zoocdn.com" src || pyIn "zoocdn.com" src)).map
    (fun src => normalize_url ext src base_url)
  { l with images := dedupFirst images }

/-- Coordinates step: the script heuristic's result, when it found one
(the returned two-entry dict is always truthy). -/
def enrichCoords (ext : Ext) (soup : Doc) (l : PropertyListing) :
    PropertyListing :=
  match ext.coordsFromScripts soup.scriptBodies with
  | some coords => { l with coordinates := some coords }
  | none => l

/-- `_enrich_from_detail_page(listing, soup)`: the steps in source order. -/
def enrich_from_detail_page (ext : Ext) (base_url : String)
    (l : PropertyListing) (soup : Doc) : PropertyListing :=
  enrichCoords ext soup
    (enrichImages ext base_url soup
      (enrichFeatures soup
        (enrichAddress soup
          (enrichAgentPhone soup
            (enrichEpcImg ext base_url soup
              (enrichEpcRating soup
                (enrichDescription soup l)))))))

/-!
### `scrape_search`
-/

/-- Selector cascade of `_find_listing_cards`: first selector matching one
or more cards wins. -/
def findCardsGo (soup : Doc) : List String → List Card
  | [] => []
  | sel :: rest =>
    let cards := soup.select sel
    if cards.isEmpty then findCardsGo soup rest else cards

/-- `_find_listing_cards(soup)`. -/
def find_listing_cards (soup : Doc) : List Card :=
  findCardsGo soup
    ["article[data-testid*=listing]", "div[data-testid*=listing]",
     "div[class*=ListingCard]", "article"]

/-- The loop guard `max_results is not None and len(listings) >= max_results`. -/
def atCap (max_results : Option Nat) (n : Nat) : Bool :=
  match max_results with
  | some m => decide (m ≤ n)
  | none => false

/-- The body of one iteration of the card loop of `scrape_search`: build
the summary from the card; when its detail URL is falsy (absent or empty)
append the summary as-is; otherwise fetch the detail page and, when the
fetch yields truthy text, enrich the summary in place; append `asdict` of
the result. -/
def processCard (ext : Ext) (base_url search_url : String) (card : Card) :
    Listing :=
  let summary := parse_listing_card ext card search_url
  match summary.url with
  | none => toDict summary
  | some u =>
    if pyEmpty u then toDict summary
    else
      match ext.fetch u with
      | some detail_html =>
        if pyEmpty detail_html then toDict summary
        else toDict (enrich_from_detail_page ext base_url summary (ext.parseDoc detail_html))
      | none => toDict summary

/-- The card loop of `scrape_search`: stop once `max_results` listings
have been accumulated, otherwise process cards one by one. -/
def scrapeCards (ext : Ext) (base_url search_url : String)
    (max_results : Option Nat) : List Card → List Listing → List Listing
  | [], acc => acc
  | card :: rest, acc =>
    if atCap max_results acc.length then acc
    else
      scrapeCards ext base_url search_url max_results rest
        (acc ++ [processCard ext base_url search_url card])

/-- `scrape_search(search_url, max_results)`: empty on a failed search
fetch, otherwise the card loop over the located cards. -/
def scrape_search (ext : Ext) (base_url : String) (search_url : String)
    (max_results : Option Nat) : List Listing :=
  match ext.fetch search_url with
  | none => []
  | some html =>
    let soup := ext.parseDoc html
    scrapeCards ext base_url search_url max_results (find_listing_cards soup) []

/-!
### Specification-side definitions (written from the spec's words, for
refinement comparisons with the code-side definitions above)
-/

/-- Spec wording for deduplication: a listing is a duplicate iff its
identity key equals the key of some listing occurring earlier in the
input sequence (`prior`); keyless listings are never duplicates. -/
def dupOfEarlier (id_fields : List String) (prior : List Listing)
    (l : Listing) : Bool :=
  match build_id_key l id_fields with
  | none => false
  | some k => prior.any (fun p => build_id_key p id_fields == some k)

/-- Spec wording for deduplication, recursive pass: keep each listing
unless it duplicates an earlier one; `prior` accumulates all listings
already traversed (kept or not). -/
def dedupSpecGo (id_fields : List String) (prior : List Listing) :
    List Listing → List Listing
  | [] => []
  | l :: rest =>
    if dupOfEarlier id_fields prior l then dedupSpecGo id_fields (prior ++ [l]) rest
    else l :: dedupSpecGo id_fields (prior ++ [l]) rest

/-- Spec wording for `deduplicate`: first-seen order, drop exactly the
listings whose key equals an earlier listing's key, keep all keyless. -/
def dedupSpec (listings : List Listing) (id_fields : List String) :
    List Listing :=
  dedupSpecGo id_fields [] listings

/-- Component constraints of the spec's UK-postcode pattern: one-or-two
letters, one-or-two digits, an optional letter, whitespace, one digit,
two letters. -/
def PcParts (ls ds ol sp : List Char) (d a b : Char) : Prop :=
  1 ≤ ls.length ∧ ls.length ≤ 2 ∧ (∀ c ∈ ls, isUpperA c = true) ∧
  1 ≤ ds.length ∧ ds.length ≤ 2 ∧ (∀ c ∈ ds, isDigitA c = true) ∧
  ol.length ≤ 1 ∧ (∀ c ∈ ol, isUpperA c = true) ∧
  (∀ c ∈ sp, isSpacePy c = true) ∧
  isDigitA d = true ∧ isUpperA a = true ∧ isUpperA b = true

/-- A returned postcode has the spec's shape. -/
def PostcodeShape (r : String) : Prop :=
  ∃ ls ds ol sp d a b,
    r.data = ls ++ (ds ++ (ol ++ (sp ++ [d, a, b]))) ∧ PcParts ls ds ol sp d a b

/-- The pattern (with its trailing word boundary) matches at the head of
`cs`. -/
def MatchesHere (cs : List Char) : Prop :=
  ∃ ls ds ol sp d a b rest,
    cs = ls ++ (ds ++ (ol ++ (sp ++ d :: a :: b :: rest))) ∧
    PcParts ls ds ol sp d a b ∧
    (rest = [] ∨ ∃ c rest2, rest = c :: rest2 ∧ isWordA c = false)

/-- The character preceding the current position, given the original
preceding character `prev` and the consumed prefix `pre`. -/
def prevCharAt (prev : Option Char) (pre : List Char) : Option Char :=
  match pre.getLast? with
  | some c => some c
  | none => prev

/-- The spec's pattern (leading boundary included) matches at position
`i` of `cs`. -/
def SpecMatchAt (cs : List Char) (i : Nat) : Prop :=
  bndOk (prevCharAt none (cs.take i)) = true ∧ MatchesHere (cs.drop i)

/-!
### Concrete fixtures used by counterexamples and witnesses
-/

/-- A card on which every selector fails and that has no anchor. -/
def cardEmpty : Card := { selectOne := fun _ => none, firstAHref := none }

/-- A card with no matching text selectors but one detail link. -/
def cardLink : Card :=
  { selectOne := fun _ => none, firstAHref := some "https://www.zoopla.co.uk/d/1" }

/-- A detail page on which every extraction comes up empty. -/
def docEmpty : Doc :=
  { select := fun _ => [], selectOne := fun _ => none, epcImgSrc := none,
    selectTexts := fun _ => [], imgSrcs := [], scriptBodies := [] }

/-- A search page whose first card selector yields exactly `cardLink`. -/
def docOneCard : Doc :=
  { select := fun sel =>
      if sel == "article[data-testid*=listing]" then [cardLink] else [],
    selectOne := fun _ => none, epcImgSrc := none,
    selectTexts := fun _ => [], imgSrcs := [], scriptBodies := [] }

/-- External world where every request fails. -/
def extNoFetch : Ext :=
  { fetch := fun _ => none, parseDoc := fun _ => docEmpty,
    urljoin := fun _ href => href, scheme := fun _ => "https",
    coordsFromScripts := fun _ => none }

/-- External world where only the search page `https://s` is reachable
(every detail fetch fails), and it holds exactly one card. -/
def extSearch : Ext :=
  { fetch := fun u => if u == "https://s" then some "page" else none,
    parseDoc := fun _ => docOneCard,
    urljoin := fun _ href => href, scheme := fun _ => "https",
    coordsFromScripts := fun _ => none }

/-- Scenario listing: title "A", same URL as `listB`. -/
def listA : Listing := [("title", Val.vStr "A"), ("url", Val.vStr "https://x")]

/-- Scenario listing: title "B", same URL as `listA`. -/
def listB : Listing := [("title", Val.vStr "B"), ("url", Val.vStr "https://x")]

/-- A listing with a usable URL identity field. -/
def listU : Listing := [("url", Val.vStr "u")]

/-!
## Theorems
-/

theorem dedupGo_eq_specGo (idf : List String) :
    ∀ (ls : List Listing) (seen : List String) (prior : List Listing),
      (∀ k : String, k ∈ seen ↔ ∃ p ∈ prior, build_id_key p idf = some k) →
      dedupGo idf seen ls = dedupSpecGo idf prior ls := by
  intro ls
  induction ls with
  | nil => intro seen prior _; rfl
  | cons l rest ih =>
    intro seen prior hinv
    cases hk : build_id_key l idf with
    | none =>
      have hinv' : ∀ k : String, k ∈ seen ↔ ∃ p ∈ prior ++ [l], build_id_key p idf = some k := by
        intro k
        rw [hinv k]
        constructor
        · rintro ⟨p, hp, hkey⟩; exact ⟨p, List.mem_append_left _ hp, hkey⟩
        · rintro ⟨p, hp, hkey⟩
          rcases List.mem_append.mp hp with hp' | hp'
          · exact ⟨p, hp', hkey⟩
          · rw [List.mem_singleton.mp hp'] at hkey
            rw [hk] at hkey
            exact absurd hkey (by simp)
      simp only [dedupGo, dedupSpecGo, dupOfEarlier, hk]
      simp only [Bool.false_eq_true, if_false]
      rw [ih seen (prior ++ [l]) hinv']
    | some k =>
      by_cases hs : k ∈ seen
      · obtain ⟨p, hp, hkey⟩ := (hinv k).mp hs
        have hany : (prior.any fun p => build_id_key p idf == some k) = true :=
          List.any_eq_true.mpr ⟨p, hp, by simp [hkey]⟩
        have hinv' : ∀ kx : String, kx ∈ seen ↔ ∃ p ∈ prior ++ [l], build_id_key p idf = some kx := by
          intro kx
          rw [hinv kx]
          constructor
          · rintro ⟨q, hq, hkeyq⟩; exact ⟨q, List.mem_append_left _ hq, hkeyq⟩
          · rintro ⟨q, hq, hkeyq⟩
            rcases List.mem_append.mp hq with h' | h'
            · exact ⟨q, h', hkeyq⟩
            · rw [List.mem_singleton.mp h'] at hkeyq
              rw [hk] at hkeyq
              obtain rfl : k = kx := Option.some_injective _ hkeyq
              exact ⟨p, hp, hkey⟩
        simp only [dedupGo, dedupSpecGo, dupOfEarlier, hk, hany, if_pos hs, if_true]
        exact ih seen (prior ++ [l]) hinv'
      · have hany : (prior.any fun p => build_id_key p idf == some k) = false := by
          rw [List.any_eq_false]
          intro p hp
          simp only [beq_iff_eq]
          intro hkey
          exact hs ((hinv k).mpr ⟨p, hp, hkey⟩)
        have hinv' : ∀ kx : String, kx ∈ k :: seen ↔ ∃ p ∈ prior ++ [l], build_id_key p idf = some kx := by
          intro kx
          rw [List.mem_cons]
          constructor
          · rintro (rfl | h')
            · exact ⟨l, List.mem_append_right _ (List.mem_singleton.mpr rfl), hk⟩
            · obtain ⟨p, hp, hkey⟩ := (hinv kx).mp h'
              exact ⟨p, List.mem_append_left _ hp, hkey⟩
          · rintro ⟨p, hp, hkey⟩
            rcases List.mem_append.mp hp with h' | h'
            · exact Or.inr ((hinv kx).mpr ⟨p, h', hkey⟩)
            · rw [List.mem_singleton.mp h'] at hkey
              rw [hk] at hkey
              exact Or.inl (Option.some_injective _ hkey).symm
        simp only [dedupGo, dedupSpecGo, dupOfEarlier, hk, hany, if_neg hs]
        simp only [Bool.false_eq_true, if_false]
        rw [ih (k :: seen) (prior ++ [l]) hinv']

theorem dedupGo_sublist (idf : List String) :
    ∀ (ls : List Listing) (seen : List String),
      List.Sublist (dedupGo idf seen ls) ls := by
  intro ls
  induction ls with
  | nil => intro _; simp [dedupGo]
  | cons l rest ih =>
    intro seen
    simp only [dedupGo]
    cases hk : build_id_key l idf with
    | none => exact List.Sublist.cons₂ l (ih seen)
    | some k =>
      by_cases hs : k ∈ seen
      · simp only [hs, if_true]
        exact List.Sublist.cons l (ih seen)
      · simp only [hs, if_false]
        exact List.Sublist.cons₂ l (ih (k :: seen))

/-- C2: `deduplicate_listings` keeps listings in first-seen order (its
output is a sublist of its input), drops exactly the listings whose
identity key equals an earlier listing's key while keeping every keyless
listing (it coincides with the specification-side `dedupSpec`), and in
the concrete scenario of two listings sharing a URL but differing in
title it keeps only the first. -/
theorem claim_C2 (ls : List Listing) (idf : List String) :
    deduplicate_listings ls idf = dedupSpec ls idf ∧
    List.Sublist (deduplicate_listings ls idf) ls ∧
    deduplicate_listings [listA, listB] ["uprn", "url"] = [listA] := by
  refine ⟨?_, ?_, ?_⟩
  · exact dedupGo_eq_specGo idf ls [] [] (by simp)
  · exact dedupGo_sublist idf ls []
  · rfl

theorem dedupGo_idem (idf : List String) :
    ∀ (ls : List Listing) (seen : List String),
      dedupGo idf seen (dedupGo idf seen ls) = dedupGo idf seen ls := by
  intro ls
  induction ls with
  | nil => intro _; rfl
  | cons l rest ih =>
    intro seen
    cases hk : build_id_key l idf with
    | none =>
      simp only [dedupGo, hk]
      rw [ih seen]
    | some k =>
      by_cases hs : k ∈ seen
      · simp only [dedupGo, hk, if_pos hs]
        exact ih seen
      · simp only [dedupGo, hk, if_neg hs]
        rw [ih (k :: seen)]

/-- C5: deduplication is idempotent — applying `deduplicate_listings` to
its own output returns that output unchanged (hence equal both as an
ordered sequence and as a set). -/
theorem claim_C5 (ls : List Listing) (idf : List String) :
    deduplicate_listings (deduplicate_listings ls idf) idf
      = deduplicate_listings ls idf :=
  dedupGo_idem idf ls []

theorem fieldTruthy_true (l : Listing) (f : String) (hf : l.fieldTruthy f = true) :
    ∃ v, l.get f = some v ∧ v.truthy = true := by
  rw [Listing.fieldTruthy] at hf
  cases hg : l.get f with
  | none => rw [hg] at hf; exact Bool.noConfusion hf
  | some v => rw [hg] at hf; exact ⟨v, rfl, hf⟩

theorem build_id_key_cons_truthy (l : Listing) (f : String) (rest : List String)
    (v : Val) (hg : l.get f = some v) (ht : v.truthy = true) :
    build_id_key l (f :: rest) = some (f ++ ":" ++ v.pyStr) := by
  rw [build_id_key, hg]
  show (if v.truthy = true then some (f ++ ":" ++ v.pyStr)
        else build_id_key l rest) = some (f ++ ":" ++ v.pyStr)
  rw [if_pos ht]

theorem build_id_key_cons_skip (l : Listing) (f : String) (rest : List String)
    (hf : l.fieldTruthy f = false) :
    build_id_key l (f :: rest) = build_id_key l rest := by
  rw [Listing.fieldTruthy] at hf
  rw [build_id_key]
  cases hg : l.get f with
  | none => rfl
  | some v =>
    rw [hg] at hf
    have hf' : v.truthy = false := hf
    show (if v.truthy = true then some (f ++ ":" ++ v.pyStr)
          else build_id_key l rest) = build_id_key l rest
    rw [if_neg (by rw [hf']; exact Bool.noConfusion)]

theorem build_id_key_eq_none_iff (l : Listing) :
    ∀ idf : List String,
      build_id_key l idf = none ↔ ∀ f ∈ idf, l.fieldTruthy f = false := by
  intro idf
  induction idf with
  | nil => simp [build_id_key]
  | cons f rest ih =>
    by_cases hf : l.fieldTruthy f = false
    · rw [build_id_key_cons_skip l f rest hf]
      simp only [List.forall_mem_cons, ih]
      tauto
    · rw [Bool.not_eq_false] at hf
      obtain ⟨v, hg, ht⟩ := fieldTruthy_true l f hf
      rw [build_id_key_cons_truthy l f rest v hg ht]
      constructor
      · intro h; cases h
      · intro hall
        have hx := hall f (List.mem_cons_self f rest)
        rw [hf] at hx
        exact Bool.noConfusion hx

theorem build_id_key_eq_some_iff (l : Listing) :
    ∀ (idf : List String) (s : String),
      build_id_key l idf = some s ↔
        ∃ pre field post, idf = pre ++ field :: post ∧
          (∀ g ∈ pre, l.fieldTruthy g = false) ∧
          ∃ v, l.get field = some v ∧ v.truthy = true ∧
            s = field ++ ":" ++ v.pyStr := by
  intro idf
  induction idf with
  | nil =>
    intro s
    constructor
    · intro h; cases h
    · rintro ⟨pre, field, post, habs, -⟩
      exact absurd habs (by simp)
  | cons f rest ih =>
    intro s
    by_cases hf : l.fieldTruthy f = false
    · rw [build_id_key_cons_skip l f rest hf]
      constructor
      · intro h
        obtain ⟨pre, field, post, heq, hpre, v, hv, ht, hs⟩ := (ih s).mp h
        refine ⟨f :: pre, field, post, by rw [heq]; rfl, ?_, v, hv, ht, hs⟩
        intro g hg'
        rcases List.mem_cons.mp hg' with rfl | hg''
        · exact hf
        · exact hpre g hg''
      · rintro ⟨pre, field, post, heq, hpre, v, hv, ht, hs⟩
        cases pre with
        | nil =>
          obtain ⟨rfl, rfl⟩ : f = field ∧ rest = post := by simpa using heq
          rw [Listing.fieldTruthy, hv] at hf
          have hf' : v.truthy = false := hf
          rw [ht] at hf'
          exact Bool.noConfusion hf'
        | cons g pre' =>
          obtain ⟨rfl, hrest⟩ : f = g ∧ rest = pre' ++ field :: post := by
            simpa using heq
          exact (ih s).mpr ⟨pre', field, post, hrest,
            fun g' hg' => hpre g' (List.mem_cons_of_mem f hg'), v, hv, ht, hs⟩
    · rw [Bool.not_eq_false] at hf
      obtain ⟨v, hg, ht⟩ := fieldTruthy_true l f hf
      rw [build_id_key_cons_truthy l f rest v hg ht]
      constructor
      · intro h
        exact ⟨[], f, rest, rfl, by simp, v, hg, ht,
          (Option.some_injective _ h).symm⟩
      · rintro ⟨pre, field, post, heq, hpre, w, hw, htw, hs⟩
        cases pre with
        | nil =>
          obtain ⟨rfl, rfl⟩ : f = field ∧ rest = post := by simpa using heq
          rw [hg] at hw
          obtain rfl := Option.some_injective _ hw
          rw [hs]
        | cons g pre' =>
          obtain ⟨rfl, hrest⟩ : f = g ∧ rest = pre' ++ field :: post := by
            simpa using heq
          have hx := hpre f (List.mem_cons_self f pre')
          rw [hf] at hx
          exact Bool.noConfusion hx

/-- C6: `_build_id_key` returns `field:value` for the first field in the
priority order whose value is present and truthy (non-empty), and absent
exactly when no priority field has a truthy value.  It is a pure total
Lean function, so determinism and never-raises hold by construction. -/
theorem claim_C6 (l : Listing) (idf : List String) :
    (∀ s, build_id_key l idf = some s ↔
      ∃ pre field post, idf = pre ++ field :: post ∧
        (∀ g ∈ pre, l.fieldTruthy g = false) ∧
        ∃ v, l.get field = some v ∧ v.truthy = true ∧
          s = field ++ ":" ++ v.pyStr) ∧
    (build_id_key l idf = none ↔ ∀ f ∈ idf, l.fieldTruthy f = false) :=
  ⟨build_id_key_eq_some_iff l idf, build_id_key_eq_none_iff l idf⟩

/-- Witness for C6: on a listing with only a URL, the key comes from the
URL under the default priority order (reference number first). -/
theorem claim_C6_witness : build_id_key listU ["uprn", "url"] = some "url:u" :=
  ((claim_C6 listU ["uprn", "url"]).1 "url:u").mpr
    ⟨["uprn"], "url", [], rfl,
     fun g hg => by rw [List.mem_singleton.mp hg]; rfl,
     Val.vStr "u", rfl, rfl, rfl⟩

theorem insertUpdate_mem :
    ∀ (idx : List (String × Listing)) (k : String) (l : Listing)
      (kl : String × Listing),
      kl ∈ insertUpdate idx k l → kl = (k, l) ∨ kl ∈ idx := by
  intro idx k l
  induction idx with
  | nil =>
    intro kl h
    simp only [insertUpdate] at h
    exact Or.inl (List.mem_singleton.mp h)
  | cons p rest ih =>
    intro kl h
    obtain ⟨k', l'⟩ := p
    by_cases hk : k' = k
    · rw [insertUpdate, if_pos hk] at h
      rcases List.mem_cons.mp h with rfl | h'
      · exact Or.inl rfl
      · exact Or.inr (List.mem_cons_of_mem _ h')
    · rw [insertUpdate, if_neg hk] at h
      rcases List.mem_cons.mp h with rfl | h'
      · exact Or.inr (List.mem_cons_self _ _)
      · rcases ih kl h' with h'' | h''
        · exact Or.inl h''
        · exact Or.inr (List.mem_cons_of_mem _ h'')

theorem foldlIndex_key (idf : List String) :
    ∀ (ls : List Listing) (init : List (String × Listing)),
      (∀ kl ∈ init, build_id_key kl.2 idf = some kl.1) →
      ∀ kl ∈ ls.foldl
        (fun idx l =>
          match build_id_key l idf with
          | some k => insertUpdate idx k l
          | none => idx) init,
        build_id_key kl.2 idf = some kl.1 := by
  intro ls
  induction ls with
  | nil => intro init hinit kl hkl; exact hinit kl hkl
  | cons l rest ih =>
    intro init hinit kl hkl
    rw [List.foldl_cons] at hkl
    refine ih _ ?_ kl hkl
    intro kl' hkl'
    cases hk : build_id_key l idf with
    | none =>
      rw [hk] at hkl'
      exact hinit kl' hkl'
    | some k =>
      rw [hk] at hkl'
      rcases insertUpdate_mem init k l kl' hkl' with rfl | h'
      · exact hk
      · exact hinit kl' h'

theorem buildIndex_key (ls : List Listing) (idf : List String) :
    ∀ kl ∈ buildIndex ls idf, build_id_key kl.2 idf = some kl.1 := by
  have h := foldlIndex_key idf ls [] (by simp)
  simpa [buildIndex] using h

/-- C3: a listing with no identity key never enters either index built by
`compute_deltas`, and consequently never appears in the `new` or the
`delisted` result. -/
theorem claim_C3 (current previous : List Listing) (idf : List String)
    (l : Listing) (h : build_id_key l idf = none) :
    (∀ k, (k, l) ∉ buildIndex current idf) ∧
    (∀ k, (k, l) ∉ buildIndex previous idf) ∧
    l ∉ (compute_deltas current previous idf).1 ∧
    l ∉ (compute_deltas current previous idf).2 := by
  refine ⟨?_, ?_, ?_, ?_⟩
  · intro k hk
    have hkey := buildIndex_key current idf (k, l) hk
    rw [h] at hkey
    cases hkey
  · intro k hk
    have hkey := buildIndex_key previous idf (k, l) hk
    rw [h] at hkey
    cases hkey
  · intro hmem
    simp only [compute_deltas] at hmem
    obtain ⟨kl, hkl, hsnd⟩ := List.mem_map.mp hmem
    have hkey := buildIndex_key current idf kl (List.mem_filter.mp hkl).1
    rw [hsnd, h] at hkey
    cases hkey
  · intro hmem
    simp only [compute_deltas] at hmem
    obtain ⟨kl, hkl, hsnd⟩ := List.mem_map.mp hmem
    have hkey := buildIndex_key previous idf kl (List.mem_filter.mp hkl).1
    rw [hsnd, h] at hkey
    cases hkey

/-- Witness for C3: the empty listing has no identity key and appears in
neither delta even though the other side is empty. -/
theorem claim_C3_witness :
    build_id_key ([] : Listing) ["uprn", "url"] = none ∧
    ([] : Listing) ∉ (compute_deltas [([] : Listing)] [] ["uprn", "url"]).1 ∧
    ([] : Listing) ∉ (compute_deltas [] [([] : Listing)] ["uprn", "url"]).2 :=
  ⟨rfl,
   (claim_C3 [([] : Listing)] [] ["uprn", "url"] ([] : Listing) rfl).2.2.1,
   (claim_C3 [] [([] : Listing)] ["uprn", "url"] ([] : Listing) rfl).2.2.2⟩

theorem lookup_isSome_of_mem :
    ∀ (idx : List (String × Listing)) (k : String) (l : Listing),
      (k, l) ∈ idx → (List.lookup k idx).isSome = true := by
  intro idx k l
  induction idx with
  | nil => intro h; cases h
  | cons p rest ih =>
    intro h
    obtain ⟨k', l'⟩ := p
    rw [List.lookup]
    by_cases hk : k = k'
    · subst hk
      simp
    · have hbeq : (k == k') = false := beq_eq_false_iff_ne.mpr hk
      rw [hbeq]
      rcases List.mem_cons.mp h with heq | h'
      · exact absurd (congrArg Prod.fst heq) hk
      · exact ih h'

/-- C4: comparing a snapshot with itself yields no new and no delisted
listings (under the claim's hypothesis that every member carries an
identity key, which the proof does not even need once the indices
coincide). -/
theorem claim_C4 (X : List Listing) (idf : List String)
    (_h : ∀ l ∈ X, build_id_key l idf ≠ none) :
    compute_deltas X X idf = ([], []) := by
  have hfilter : ∀ idx : List (String × Listing),
      idx.filter (fun kl => (List.lookup kl.1 idx).isNone) = [] := by
    intro idx
    rw [List.filter_eq_nil_iff]
    intro kl hkl
    have hsome := lookup_isSome_of_mem idx kl.1 kl.2 (by simpa using hkl)
    simp only [Option.isNone]
    cases hlk : List.lookup kl.1 idx with
    | none => rw [hlk] at hsome; cases hsome
    | some w => simp
  simp only [compute_deltas]
  rw [hfilter (buildIndex X idf)]
  simp

/-- Witness for C4: a singleton snapshot with a URL key, compared with
itself. -/
theorem claim_C4_witness :
    compute_deltas [listU] [listU] ["uprn", "url"] = ([], []) :=
  claim_C4 [listU] ["uprn", "url"] (by intro l hl; rw [List.mem_singleton.mp hl]; intro hc; cases hc)

/-- C7: `load_snapshot` (a total function — no exception escapes)
returns the parsed sequence when the file holds a JSON list, and the
empty sequence when the file is absent, unreadable, holds invalid JSON,
or holds a non-list document such as `\x7b"not": "a list"\x7d`. -/
theorem claim_C7 :
    (∀ xs : List Json, load_snapshot (FileContent.json (Json.arr xs)) = xs) ∧
    (∀ fc : FileContent, fc.isList = false → load_snapshot fc = []) ∧
    load_snapshot (FileContent.json (Json.obj [("not", Json.str "a list")])) = [] := by
  refine ⟨fun xs => rfl, ?_, rfl⟩
  intro fc h
  cases fc with
  | absent => rfl
  | readError => rfl
  | invalidJson => rfl
  | json j =>
    cases j with
    | null => rfl
    | bool b => rfl
    | num n => rfl
    | str s => rfl
    | arr xs => simp [FileContent.isList] at h
    | obj kvs => rfl

/-- Witness for C7: the non-list snapshot document of the scenario. -/
theorem claim_C7_witness :
    FileContent.isList (FileContent.json (Json.obj [("not", Json.str "a list")])) = false ∧
    load_snapshot (FileContent.json (Json.obj [("not", Json.str "a list")])) = [] :=
  ⟨rfl, claim_C7.2.1 _ rfl⟩

theorem enrichDescription_eq (soup : Doc) (l : PropertyListing) :
    enrichDescription soup l =
      { l with description :=
          match (extract_text soup.selectOne
              ["p[data-testid*=listing-description]",
               "div[data-testid*=description] p",
               "div[class*=description] p"]) with
          | some d => if pyEmpty d then l.description else some (pyStripS d)
          | none => l.description } := by
  rw [enrichDescription]
  cases (extract_text soup.selectOne
      ["p[data-testid*=listing-description]", "div[data-testid*=description] p",
       "div[class*=description] p"]) with
  | none => rfl
  | some d => cases hd : pyEmpty d <;> simp [hd]

theorem enrichEpcRating_eq (soup : Doc) (l : PropertyListing) :
    enrichEpcRating soup l =
      { l with epcRating :=
          match (extract_text soup.selectOne
              ["span[data-testid*=epc-rating]", "span[class*=epc-rating]"]) with
          | some r => if pyEmpty r then l.epcRating else some (pyStripS r)
          | none => l.epcRating } := by
  rw [enrichEpcRating]
  cases (extract_text soup.selectOne
      ["span[data-testid*=epc-rating]", "span[class*=epc-rating]"]) with
  | none => rfl
  | some r => cases hr : pyEmpty r <;> simp [hr]

theorem enrichEpcImg_eq (ext : Ext) (base : String) (soup : Doc)
    (l : PropertyListing) :
    enrichEpcImg ext base soup l =
      { l with epc :=
          match soup.epcImgSrc with
          | some src => if pyEmpty src then l.epc else some (normalize_url ext src base)
          | none => l.epc } := by
  rw [enrichEpcImg]
  cases soup.epcImgSrc with
  | none => rfl
  | some src => cases hs : pyEmpty src <;> simp [hs]

theorem enrichAgentPhone_eq (soup : Doc) (l : PropertyListing) :
    enrichAgentPhone soup l =
      { l with agentPhone :=
          match (extract_text soup.selectOne
              ["a[href^='tel:']", "span[class*=agent-phone]"]) with
          | some p => if pyEmpty p then l.agentPhone else some (pyStripS p)
          | none => l.agentPhone } := by
  rw [enrichAgentPhone]
  cases (extract_text soup.selectOne ["a[href^='tel:']", "span[class*=agent-phone]"]) with
  | none => rfl
  | some p => cases hp : pyEmpty p <;> simp [hp]

theorem enrichAddress_eq (soup : Doc) (l : PropertyListing) :
    enrichAddress soup l =
      { l with
        address :=
          match extract_text soup.selectOne ["address", "p[data-testid*=address]"] with
          | some a => if pyEmpty a then l.address else some (pyStripS a)
          | none => l.address,
        postalCode :=
          extract_postcode ((extract_text soup.selectOne
            ["address", "p[data-testid*=address]"]).getD "") } := by
  rw [enrichAddress]
  cases (extract_text soup.selectOne ["address", "p[data-testid*=address]"]) with
  | none => rfl
  | some a => cases ha : pyEmpty a <;> simp [ha]

theorem enrichFeatures_eq (soup : Doc) (l : PropertyListing) :
    enrichFeatures soup l =
      { l with features :=
          ((["ul[data-testid*=features] li", "ul[class*=features] li"].map
            soup.selectTexts).flatten).foldl addFeature [] } := rfl

theorem enrichImages_eq (ext : Ext) (base : String) (soup : Doc)
    (l : PropertyListing) :
    enrichImages ext base soup l =
      { l with images :=
          dedupFirst ((soup.imgSrcs.filter
            (fun src => pyIn "lid.zoocdn.com" src || pyIn "zoocdn.com" src)).map
            (fun src => normalize_url ext src base)) } := rfl

theorem enrichCoords_eq (ext : Ext) (soup : Doc) (l : PropertyListing) :
    enrichCoords ext soup l =
      { l with coordinates :=
          match ext.coordsFromScripts soup.scriptBodies with
          | some c => some c
          | none => l.coordinates } := by
  rw [enrichCoords]
  cases ext.coordsFromScripts soup.scriptBodies with
  | none => rfl
  | some c => rfl

/-- Closed form of `_enrich_from_detail_page`: it updates exactly the
detail-phase fields, each according to its extraction outcome, and leaves
every other field of the listing untouched. -/
theorem enrich_fields (ext : Ext) (base : String) (soup : Doc)
    (l : PropertyListing) :
    enrich_from_detail_page ext base l soup =
      { l with
        description :=
          match (extract_text soup.selectOne
              ["p[data-testid*=listing-description]",
               "div[data-testid*=description] p",
               "div[class*=description] p"]) with
          | some d => if pyEmpty d then l.description else some (pyStripS d)
          | none => l.description,
        epcRating :=
          match (extract_text soup.selectOne
              ["span[data-testid*=epc-rating]", "span[class*=epc-rating]"]) with
          | some r => if pyEmpty r then l.epcRating else some (pyStripS r)
          | none => l.epcRating,
        epc :=
          match soup.epcImgSrc with
          | some src => if pyEmpty src then l.epc else some (normalize_url ext src base)
          | none => l.epc,
        agentPhone :=
          match (extract_text soup.selectOne
              ["a[href^='tel:']", "span[class*=agent-phone]"]) with
          | some p => if pyEmpty p then l.agentPhone else some (pyStripS p)
          | none => l.agentPhone,
        address :=
          match extract_text soup.selectOne ["address", "p[data-testid*=address]"] with
          | some a => if pyEmpty a then l.address else some (pyStripS a)
          | none => l.address,
        postalCode :=
          extract_postcode ((extract_text soup.selectOne
            ["address", "p[data-testid*=address]"]).getD ""),
        features :=
          ((["ul[data-testid*=features] li", "ul[class*=features] li"].map
            soup.selectTexts).flatten).foldl addFeature [],
        images :=
          dedupFirst ((soup.imgSrcs.filter
            (fun src => pyIn "lid.zoocdn.com" src || pyIn "zoocdn.com" src)).map
            (fun src => normalize_url ext src base)),
        coordinates :=
          match ext.coordsFromScripts soup.scriptBodies with
          | some c => some c
          | none => l.coordinates } := by
  rw [enrich_from_detail_page, enrichDescription_eq, enrichEpcRating_eq,
    enrichEpcImg_eq, enrichAgentPhone_eq, enrichAddress_eq, enrichFeatures_eq,
    enrichImages_eq, enrichCoords_eq]

/-- C1 fails on the code: on a card where no title selector matches, the
card phase stores the sentinel empty string (`title=title or ""` in
`_parse_listing_card`), not an absent value, and that sentinel is what
the produced record carries under `"title"`. -/
theorem claim_C1_counterexample :
    extract_text cardEmpty.selectOne ["h2[data-testid*=listing-title]", "h2", "h3"] = none ∧
    (parse_listing_card extNoFetch cardEmpty "https://www.zoopla.co.uk").title = "" ∧
    List.lookup "title"
      (toDict (parse_listing_card extNoFetch cardEmpty "https://www.zoopla.co.uk"))
      = some (Val.vStr "") ∧
    Val.vStr "" ≠ Val.vNone :=
  ⟨rfl, rfl, rfl, fun h => Val.noConfusion h⟩

/-- C1 amended: every field of a listing record that was not found during
extraction is represented as an explicit absent value (`none` or the
empty collection) — with the single exception of `title`, which the card
phase stores as the sentinel empty string `""` when no title-matching
element exists.  Card-phase-only fields are absent after the card phase
and are never touched by detail-page enrichment; detail-phase fields stay
absent when their extraction finds nothing. -/
theorem claim_C1_amended (ext : Ext) (card : Card) (base : String) (soup : Doc) :
    (parse_listing_card ext card base).uprn = none ∧
    (parse_listing_card ext card base).livingroom = none ∧
    (parse_listing_card ext card base).description = none ∧
    (parse_listing_card ext card base).coordinates = none ∧
    (parse_listing_card ext card base).agentPhone = none ∧
    (parse_listing_card ext card base).epc = none ∧
    (parse_listing_card ext card base).epcRating = none ∧
    (parse_listing_card ext card base).postalCode = none ∧
    (parse_listing_card ext card base).images = [] ∧
    (parse_listing_card ext card base).features = [] ∧
    (parse_listing_card ext card base).priceHistory = [] ∧
    (parse_listing_card ext card base).pointsOfInterest = [] ∧
    (extract_text card.selectOne ["h2[data-testid*=listing-title]", "h2", "h3"] = none →
      (parse_listing_card ext card base).title = "") ∧
    (extract_text card.selectOne ["p[data-testid*=listing-price]",
        "div[data-testid*=listing-price]", "span[class*=price]"] = none →
      (parse_listing_card ext card base).price = none) ∧
    (extract_text card.selectOne ["p[data-testid*=listing-description]", "address",
        "span[class*=address]"] = none →
      (parse_listing_card ext card base).address = none) ∧
    (extract_text card.selectOne ["span[data-testid*=badge]", "span[class*=category]"] = none →
      (parse_listing_card ext card base).category = none) ∧
    (extract_text card.selectOne ["span[class*=property-type]",
        "span[data-testid*=property-type]"] = none →
      (parse_listing_card ext card base).propertyType = none ∧
      (parse_listing_card ext card base).type_ = none) ∧
    (extract_text card.selectOne ["p[data-testid*=listing-agent]", "span[class*=agent]"] = none →
      (parse_listing_card ext card base).agent = none) ∧
    (extract_int_from_text card.selectOne ["li[data-testid*=bed]", "span[class*=bedrooms]"] = none →
      (parse_listing_card ext card base).bedrooms = none) ∧
    (extract_int_from_text card.selectOne ["li[data-testid*=bath]", "span[class*=bathrooms]"] = none →
      (parse_listing_card ext card base).bathrooms = none) ∧
    (card.firstAHref = none → (parse_listing_card ext card base).url = none) ∧
    (∀ l : PropertyListing,
      (enrich_from_detail_page ext base l soup).title = l.title ∧
      (enrich_from_detail_page ext base l soup).uprn = l.uprn ∧
      (enrich_from_detail_page ext base l soup).url = l.url ∧
      (enrich_from_detail_page ext base l soup).price = l.price ∧
      (enrich_from_detail_page ext base l soup).category = l.category ∧
      (enrich_from_detail_page ext base l soup).type_ = l.type_ ∧
      (enrich_from_detail_page ext base l soup).propertyType = l.propertyType ∧
      (enrich_from_detail_page ext base l soup).agent = l.agent ∧
      (enrich_from_detail_page ext base l soup).bedrooms = l.bedrooms ∧
      (enrich_from_detail_page ext base l soup).bathrooms = l.bathrooms ∧
      (enrich_from_detail_page ext base l soup).livingroom = l.livingroom ∧
      (enrich_from_detail_page ext base l soup).priceHistory = l.priceHistory ∧
      (enrich_from_detail_page ext base l soup).pointsOfInterest = l.pointsOfInterest) ∧
    (extract_text soup.selectOne ["p[data-testid*=listing-description]",
        "div[data-testid*=description] p", "div[class*=description] p"] = none →
      (enrich_from_detail_page ext base (parse_listing_card ext card base) soup).description
        = none) ∧
    (extract_text soup.selectOne ["span[data-testid*=epc-rating]",
        "span[class*=epc-rating]"] = none →
      (enrich_from_detail_page ext base (parse_listing_card ext card base) soup).epcRating
        = none) ∧
    (soup.epcImgSrc = none →
      (enrich_from_detail_page ext base (parse_listing_card ext card base) soup).epc = none) ∧
    (extract_text soup.selectOne ["a[href^='tel:']", "span[class*=agent-phone]"] = none →
      (enrich_from_detail_page ext base (parse_listing_card ext card base) soup).agentPhone
        = none) ∧
    (extract_text card.selectOne ["p[data-testid*=listing-description]", "address",
        "span[class*=address]"] = none →
     extract_text soup.selectOne ["address", "p[data-testid*=address]"] = none →
      (enrich_from_detail_page ext base (parse_listing_card ext card base) soup).address
        = none ∧
      (enrich_from_detail_page ext base (parse_listing_card ext card base) soup).postalCode
        = none) ∧
    (soup.selectTexts "ul[data-testid*=features] li" = [] →
     soup.selectTexts "ul[class*=features] li" = [] →
      (enrich_from_detail_page ext base (parse_listing_card ext card base) soup).features
        = []) ∧
    (soup.imgSrcs = [] →
      (enrich_from_detail_page ext base (parse_listing_card ext card base) soup).images
        = []) ∧
    (ext.coordsFromScripts soup.scriptBodies = none →
      (enrich_from_detail_page ext base (parse_listing_card ext card base) soup).coordinates
        = none) := by
  refine ⟨rfl, rfl, rfl, rfl, rfl, rfl, rfl, rfl, rfl, rfl, rfl, rfl,
    ?_, ?_, ?_, ?_, ?_, ?_, ?_, ?_, ?_, ?_, ?_, ?_, ?_, ?_, ?_, ?_, ?_, ?_⟩
  · intro h; simp [parse_listing_card, h]
  · intro h; simp [parse_listing_card, h]
  · intro h; simp [parse_listing_card, h]
  · intro h; simp [parse_listing_card, h]
  · intro h; simp [parse_listing_card, h]
  · intro h; simp [parse_listing_card, h]
  · intro h; simp [parse_listing_card, h]
  · intro h; simp [parse_listing_card, h]
  · intro h; simp [parse_listing_card, h]
  · intro l
    rw [enrich_fields]
    exact ⟨rfl, rfl, rfl, rfl, rfl, rfl, rfl, rfl, rfl, rfl, rfl, rfl, rfl⟩
  · intro h; rw [enrich_fields]; simp [h, parse_listing_card]
  · intro h; rw [enrich_fields]; simp [h, parse_listing_card]
  · intro h; rw [enrich_fields]; simp [h, parse_listing_card]
  · intro h; rw [enrich_fields]; simp [h, parse_listing_card]
  · intro hc hd
    rw [enrich_fields]
    constructor
    · simp [hd, parse_listing_card, hc]
    · simp [hd]
      rfl
  · intro h1 h2; rw [enrich_fields]; simp [h1, h2]
  · intro h; rw [enrich_fields]; simp [h, dedupFirst]
  · intro h; rw [enrich_fields]; simp [h, parse_listing_card]

/-- Witness for the amended C1: the all-failing card and detail page,
with the all-failing external world. -/
theorem claim_C1_amended_witness :
    (parse_listing_card extNoFetch cardEmpty "https://s").title = "" ∧
    (parse_listing_card extNoFetch cardEmpty "https://s").price = none ∧
    (enrich_from_detail_page extNoFetch "https://s"
      (parse_listing_card extNoFetch cardEmpty "https://s") docEmpty).description = none ∧
    (enrich_from_detail_page extNoFetch "https://s"
      (parse_listing_card extNoFetch cardEmpty "https://s") docEmpty).postalCode = none ∧
    (enrich_from_detail_page extNoFetch "https://s"
      (parse_listing_card extNoFetch cardEmpty "https://s") docEmpty).features = [] ∧
    (enrich_from_detail_page extNoFetch "https://s"
      (parse_listing_card extNoFetch cardEmpty "https://s") docEmpty).coordinates = none := by
  have h := claim_C1_amended extNoFetch cardEmpty "https://s" docEmpty
  exact ⟨h.2.2.2.2.2.2.2.2.2.2.2.2.1 rfl,
    h.2.2.2.2.2.2.2.2.2.2.2.2.2.1 rfl,
    h.2.2.2.2.2.2.2.2.2.2.2.2.2.2.2.2.2.2.2.2.2.2.1 rfl,
    (h.2.2.2.2.2.2.2.2.2.2.2.2.2.2.2.2.2.2.2.2.2.2.2.2.2.2.1 rfl rfl).2,
    h.2.2.2.2.2.2.2.2.2.2.2.2.2.2.2.2.2.2.2.2.2.2.2.2.2.2.2.1 rfl rfl,
    h.2.2.2.2.2.2.2.2.2.2.2.2.2.2.2.2.2.2.2.2.2.2.2.2.2.2.2.2.2 rfl⟩

theorem scrapeCards_extends (ext : Ext) (base_url search_url : String)
    (maxr : Option Nat) :
    ∀ (cards : List Card) (acc : List Listing),
      ∃ t, scrapeCards ext base_url search_url maxr cards acc = acc ++ t := by
  intro cards
  induction cards with
  | nil => intro acc; exact ⟨[], (List.append_nil acc).symm⟩
  | cons card rest ih =>
    intro acc
    rw [scrapeCards]
    by_cases hcap : atCap maxr acc.length = true
    · rw [if_pos hcap]
      exact ⟨[], (List.append_nil acc).symm⟩
    · rw [if_neg hcap]
      obtain ⟨t, ht⟩ := ih (acc ++ [processCard ext base_url search_url card])
      exact ⟨processCard ext base_url search_url card :: t, by
        rw [ht, List.append_assoc]; rfl⟩

theorem parse_uprn (ext : Ext) (card : Card) (u : String) :
    (parse_listing_card ext card u).uprn = none := rfl

theorem enrich_uprn (ext : Ext) (b : String) (l : PropertyListing) (soup : Doc) :
    (enrich_from_detail_page ext b l soup).uprn = l.uprn := by
  rw [enrich_fields]

theorem toDict_uprn (p : PropertyListing) :
    List.lookup "uprn" (toDict p) = some (optStr p.uprn) := rfl

theorem processCard_uprn (ext : Ext) (b s : String) (card : Card) :
    List.lookup "uprn" (processCard ext b s card) = some Val.vNone := by
  simp only [processCard]
  split
  · rw [toDict_uprn, parse_uprn]; rfl
  · split
    · rw [toDict_uprn, parse_uprn]; rfl
    · split
      · split
        · rw [toDict_uprn, parse_uprn]; rfl
        · rw [toDict_uprn, enrich_uprn, parse_uprn]; rfl
      · rw [toDict_uprn, parse_uprn]; rfl

theorem scrapeCards_uprn (ext : Ext) (b s : String) (maxr : Option Nat) :
    ∀ (cards : List Card) (acc : List Listing),
      (∀ l ∈ acc, List.lookup "uprn" l = some Val.vNone) →
      ∀ l ∈ scrapeCards ext b s maxr cards acc,
        List.lookup "uprn" l = some Val.vNone := by
  intro cards
  induction cards with
  | nil => intro acc hacc l hl; exact hacc l hl
  | cons card rest ih =>
    intro acc hacc l hl
    rw [scrapeCards] at hl
    by_cases hcap : atCap maxr acc.length = true
    · rw [if_pos hcap] at hl
      exact hacc l hl
    · rw [if_neg hcap] at hl
      refine ih _ ?_ l hl
      intro l' hl'
      rcases List.mem_append.mp hl' with h' | h'
      · exact hacc l' h'
      · rw [List.mem_singleton.mp h']
        exact processCard_uprn ext b s card

/-- C10: every listing produced by `scrape_search` carries an absent
reference number (`uprn` is `None` — neither phase ever sets it), so the
default identity priority always falls through to the URL: the key is
the URL-derived key or absent. -/
theorem claim_C10 (ext : Ext) (base_url search_url : String)
    (maxr : Option Nat) (l : Listing)
    (h : l ∈ scrape_search ext base_url search_url maxr) :
    List.lookup "uprn" l = some Val.vNone ∧
    build_id_key l ["uprn", "url"] = build_id_key l ["url"] := by
  have huprn : List.lookup "uprn" l = some Val.vNone := by
    cases hf : ext.fetch search_url with
    | none =>
      simp only [scrape_search, hf] at h
      exact absurd h (List.not_mem_nil l)
    | some html =>
      simp only [scrape_search, hf] at h
      exact scrapeCards_uprn ext base_url search_url maxr _ [] (by simp) l h
  refine ⟨huprn, ?_⟩
  have hft : l.fieldTruthy "uprn" = false := by
    rw [Listing.fieldTruthy]
    rw [show l.get "uprn" = some Val.vNone from huprn]
    rfl
  exact build_id_key_cons_skip l "uprn" ["url"] hft

/-- Witness for C10: a one-card search page whose detail fetch fails. -/
theorem claim_C10_witness :
    List.lookup "uprn" (toDict (parse_listing_card extSearch cardLink "https://s"))
      = some Val.vNone := by
  have hmem : toDict (parse_listing_card extSearch cardLink "https://s")
      ∈ scrape_search extSearch "https://www.zoopla.co.uk" "https://s" none := by
    rw [show scrape_search extSearch "https://www.zoopla.co.uk" "https://s" none
        = [toDict (parse_listing_card extSearch cardLink "https://s")] from rfl]
    exact List.mem_singleton.mpr rfl
  exact (claim_C10 extSearch "https://www.zoopla.co.uk" "https://s" none _ hmem).1

/-- C9: when the card phase produced a usable detail URL but the detail
fetch fails, the enrichment phase is skipped entirely: the loop appends
exactly the card-phase record and moves on, the record stays in the final
result, and all enrichment fields of that record are absent.  The whole
pipeline is a total Lean function, so no exception reaches the caller. -/
theorem claim_C9 (ext : Ext) (base_url search_url : String)
    (maxr : Option Nat) (card : Card) (rest : List Card) (acc : List Listing)
    (u : String)
    (hcap : atCap maxr acc.length = false)
    (hurl : (parse_listing_card ext card search_url).url = some u)
    (hne : pyEmpty u = false)
    (hfail : ext.fetch u = none) :
    scrapeCards ext base_url search_url maxr (card :: rest) acc
      = scrapeCards ext base_url search_url maxr rest
          (acc ++ [toDict (parse_listing_card ext card search_url)]) ∧
    toDict (parse_listing_card ext card search_url)
      ∈ scrapeCards ext base_url search_url maxr (card :: rest) acc ∧
    (parse_listing_card ext card search_url).description = none ∧
    (parse_listing_card ext card search_url).epcRating = none ∧
    (parse_listing_card ext card search_url).epc = none ∧
    (parse_listing_card ext card search_url).agentPhone = none ∧
    (parse_listing_card ext card search_url).features = [] ∧
    (parse_listing_card ext card search_url).images = [] ∧
    (parse_listing_card ext card search_url).coordinates = none ∧
    (parse_listing_card ext card search_url).postalCode = none := by
  have hproc : processCard ext base_url search_url card
      = toDict (parse_listing_card ext card search_url) := by
    simp only [processCard, hurl, hne, hfail]
    simp
  have hstep : scrapeCards ext base_url search_url maxr (card :: rest) acc
      = scrapeCards ext base_url search_url maxr rest
          (acc ++ [toDict (parse_listing_card ext card search_url)]) := by
    rw [scrapeCards, if_neg (by rw [hcap]; exact Bool.noConfusion), hproc]
  refine ⟨hstep, ?_, rfl, rfl, rfl, rfl, rfl, rfl, rfl, rfl⟩
  rw [hstep]
  obtain ⟨t, ht⟩ := scrapeCards_extends ext base_url search_url maxr rest
    (acc ++ [toDict (parse_listing_card ext card search_url)])
  rw [ht]
  simp

/-- Witness for C9: the concrete one-card page with a failing detail
fetch. -/
theorem claim_C9_witness :
    scrapeCards extNoFetch "https://www.zoopla.co.uk" "https://s" none [cardLink] []
      = [toDict (parse_listing_card extNoFetch cardLink "https://s")] ∧
    (parse_listing_card extNoFetch cardLink "https://s").description = none := by
  have h := claim_C9 extNoFetch "https://www.zoopla.co.uk" "https://s" none cardLink
    [] [] "https://www.zoopla.co.uk/d/1" rfl rfl rfl rfl
  exact ⟨by rw [h.1]; rfl, h.2.2.1⟩

theorem digitA_not_space {c : Char} (h : isDigitA c = true) : isSpacePy c = false := by
  simp only [isSpacePy, Bool.or_eq_false_iff, beq_eq_false_iff_ne]
  refine ⟨⟨⟨⟨⟨?_, ?_⟩, ?_⟩, ?_⟩, ?_⟩, ?_⟩ <;>
    (intro heq; subst heq; exact absurd h (by decide))

theorem upperA_not_space {c : Char} (h : isUpperA c = true) : isSpacePy c = false := by
  simp only [isSpacePy, Bool.or_eq_false_iff, beq_eq_false_iff_ne]
  refine ⟨⟨⟨⟨⟨?_, ?_⟩, ?_⟩, ?_⟩, ?_⟩, ?_⟩ <;>
    (intro heq; subst heq; exact absurd h (by decide))

theorem bndHead_iff (rest : List Char) :
    bndHead rest = true ↔
      (rest = [] ∨ ∃ c rest2, rest = c :: rest2 ∧ isWordA c = false) := by
  cases rest with
  | nil => simp [bndHead]
  | cons c r2 =>
    simp only [bndHead, Bool.not_eq_true']
    constructor
    · intro h; exact Or.inr ⟨c, r2, rfl, h⟩
    · rintro (h | ⟨c', r2', heq, h⟩)
      · cases h
      · obtain ⟨rfl, rfl⟩ : c = c' ∧ r2 = r2' := by simpa using heq
        exact h

theorem dropWhile_spaces (sp : List Char) (d : Char) (tail : List Char)
    (hsp : ∀ c ∈ sp, isSpacePy c = true) (hd : isSpacePy d = false) :
    (sp ++ d :: tail).dropWhile isSpacePy = d :: tail ∧
    (sp ++ d :: tail).takeWhile isSpacePy = sp := by
  induction sp with
  | nil => simp [List.dropWhile_cons, List.takeWhile_cons, hd]
  | cons c sp' ih =>
    have hc : isSpacePy c = true := hsp c (List.mem_cons_self c sp')
    have ih' := ih (fun x hx => hsp x (List.mem_cons_of_mem _ hx))
    simp [List.dropWhile_cons, List.takeWhile_cons, hc, ih'.1, ih'.2]

theorem matchFinal_eq_some {cs m : List Char} (h : matchFinal cs = some m) :
    ∃ d a b rest, cs = d :: a :: b :: rest ∧ m = [d, a, b] ∧
      isDigitA d = true ∧ isUpperA a = true ∧ isUpperA b = true ∧
      bndHead rest = true := by
  match cs with
  | [] => exact absurd h (by simp [matchFinal])
  | [d] => exact absurd h (by simp [matchFinal])
  | [d, a] => exact absurd h (by simp [matchFinal])
  | d :: a :: b :: rest =>
    rw [matchFinal] at h
    by_cases hcond : (isDigitA d && isUpperA a && isUpperA b && bndHead rest) = true
    · rw [if_pos hcond] at h
      obtain rfl : [d, a, b] = m := Option.some_injective _ h
      simp only [Bool.and_eq_true] at hcond
      exact ⟨d, a, b, rest, rfl, rfl, hcond.1.1.1, hcond.1.1.2, hcond.1.2, hcond.2⟩
    · rw [if_neg hcond] at h
      cases h

theorem matchFinal_comp {d a b : Char} {rest : List Char}
    (hd : isDigitA d = true) (ha : isUpperA a = true) (hb : isUpperA b = true)
    (hr : bndHead rest = true) :
    matchFinal (d :: a :: b :: rest) = some [d, a, b] := by
  rw [matchFinal, hd, ha, hb, hr]
  simp

theorem matchSpaceTail_eq_some {cs m : List Char} (h : matchSpaceTail cs = some m) :
    ∃ sp d a b rest, cs = sp ++ d :: a :: b :: rest ∧ m = sp ++ [d, a, b] ∧
      (∀ c ∈ sp, isSpacePy c = true) ∧
      isDigitA d = true ∧ isUpperA a = true ∧ isUpperA b = true ∧
      bndHead rest = true := by
  rw [matchSpaceTail] at h
  cases hf : matchFinal (cs.dropWhile isSpacePy) with
  | none => rw [hf] at h; cases h
  | some m' =>
    rw [hf] at h
    obtain rfl : cs.takeWhile isSpacePy ++ m' = m := Option.some_injective _ h
    obtain ⟨d, a, b, rest, hdrop, rfl, hd, ha, hb, hr⟩ := matchFinal_eq_some hf
    refine ⟨cs.takeWhile isSpacePy, d, a, b, rest, ?_, rfl, ?_, hd, ha, hb, hr⟩
    · conv_lhs => rw [← @List.takeWhile_append_dropWhile Char isSpacePy cs]
      rw [hdrop]
    · intro c hc
      exact List.mem_takeWhile_imp hc

theorem matchSpaceTail_comp {sp : List Char} {d a b : Char} {rest : List Char}
    (hsp : ∀ c ∈ sp, isSpacePy c = true)
    (hd : isDigitA d = true) (ha : isUpperA a = true) (hb : isUpperA b = true)
    (hr : bndHead rest = true) :
    matchSpaceTail (sp ++ d :: a :: b :: rest) = some (sp ++ [d, a, b]) := by
  obtain ⟨h1, h2⟩ := dropWhile_spaces sp d (a :: b :: rest) hsp (digitA_not_space hd)
  rw [matchSpaceTail, h1, matchFinal_comp hd ha hb hr, h2]

theorem digitA_not_upper {c : Char} (h : isDigitA c = true) : isUpperA c = false := by
  rw [Bool.eq_false_iff]
  intro hcon
  simp only [isDigitA, isUpperA, Bool.and_eq_true, decide_eq_true_eq] at h hcon
  omega

theorem space_not_upper {c : Char} (h : isSpacePy c = true) : isUpperA c = false := by
  simp only [isSpacePy, Bool.or_eq_true, beq_iff_eq] at h
  rcases h with ((((h | h) | h) | h) | h) | h <;> (subst h; decide)

theorem matchOptLetter_eq_some {cs m : List Char} (h : matchOptLetter cs = some m) :
    ∃ ol sp d a b rest, cs = ol ++ sp ++ d :: a :: b :: rest ∧
      m = ol ++ sp ++ [d, a, b] ∧
      ol.length ≤ 1 ∧ (∀ c ∈ ol, isUpperA c = true) ∧
      (∀ c ∈ sp, isSpacePy c = true) ∧
      isDigitA d = true ∧ isUpperA a = true ∧ isUpperA b = true ∧
      bndHead rest = true := by
  cases cs with
  | nil =>
    simp only [matchOptLetter] at h
    obtain ⟨sp, d, a, b, rest, habs, -⟩ := matchSpaceTail_eq_some h
    exact absurd habs (by simp)
  | cons c rest0 =>
    simp only [matchOptLetter] at h
    by_cases hc : isUpperA c = true
    · rw [if_pos hc] at h
      cases hst : matchSpaceTail rest0 with
      | some m1 =>
        rw [hst] at h
        obtain rfl : c :: m1 = m := Option.some_injective _ h
        obtain ⟨sp, d, a, b, rest, h1, h2, hsp, hd, ha, hb, hr⟩ :=
          matchSpaceTail_eq_some hst
        refine ⟨[c], sp, d, a, b, rest, by rw [h1]; rfl, by rw [h2]; rfl,
          by simp, ?_, hsp, hd, ha, hb, hr⟩
        intro x hx
        rw [List.mem_singleton.mp hx]
        exact hc
      | none =>
        rw [hst] at h
        obtain ⟨sp, d, a, b, rest, h1, h2, hsp, hd, ha, hb, hr⟩ :=
          matchSpaceTail_eq_some h
        exact ⟨[], sp, d, a, b, rest, by simp [h1], by simp [h2],
          by simp, by simp, hsp, hd, ha, hb, hr⟩
    · rw [if_neg hc] at h
      obtain ⟨sp, d, a, b, rest, h1, h2, hsp, hd, ha, hb, hr⟩ :=
        matchSpaceTail_eq_some h
      exact ⟨[], sp, d, a, b, rest, by simp [h1], by simp [h2],
        by simp, by simp, hsp, hd, ha, hb, hr⟩

theorem matchOptLetter_comp {ol sp : List Char} {d a b : Char} {rest : List Char}
    (hol : ol.length ≤ 1) (holu : ∀ c ∈ ol, isUpperA c = true)
    (hsp : ∀ c ∈ sp, isSpacePy c = true)
    (hd : isDigitA d = true) (ha : isUpperA a = true) (hb : isUpperA b = true)
    (hr : bndHead rest = true) :
    (matchOptLetter (ol ++ sp ++ d :: a :: b :: rest)).isSome = true := by
  have hbase : matchSpaceTail (sp ++ d :: a :: b :: rest) = some (sp ++ [d, a, b]) :=
    matchSpaceTail_comp hsp hd ha hb hr
  cases ol with
  | cons c ol2 =>
    obtain rfl : ol2 = [] := by
      rw [List.length_cons] at hol
      exact List.length_eq_zero.mp (by omega)
    have hc : isUpperA c = true := holu c (List.mem_cons_self c [])
    rw [show (c :: ([] : List Char)) ++ sp ++ d :: a :: b :: rest
        = c :: (sp ++ d :: a :: b :: rest) from by simp]
    rw [matchOptLetter, if_pos hc, hbase]
    rfl
  | nil =>
    rw [List.nil_append]
    cases sp with
    | cons s sp2 =>
      have hs : isUpperA s = false := space_not_upper (hsp s (List.mem_cons_self s sp2))
      rw [show (s :: sp2) ++ d :: a :: b :: rest
          = s :: (sp2 ++ d :: a :: b :: rest) from rfl]
      rw [matchOptLetter, if_neg (by rw [hs]; exact Bool.noConfusion)]
      rw [show s :: (sp2 ++ d :: a :: b :: rest)
          = (s :: sp2) ++ d :: a :: b :: rest from rfl]
      rw [hbase]
      rfl
    | nil =>
      have hdu : isUpperA d = false := digitA_not_upper hd
      rw [List.nil_append] at hbase ⊢
      rw [matchOptLetter, if_neg (by rw [hdu]; exact Bool.noConfusion)]
      rw [hbase]
      rfl


theorem upper_not_digit {c : Char} (h : isUpperA c = true) : isDigitA c = false := by
  rw [Bool.eq_false_iff]
  intro hcon
  simp only [isDigitA, isUpperA, Bool.and_eq_true, decide_eq_true_eq] at h hcon
  omega

theorem space_not_digit {c : Char} (h : isSpacePy c = true) : isDigitA c = false := by
  simp only [isSpacePy, Bool.or_eq_true, beq_iff_eq] at h
  rcases h with ((((h | h) | h) | h) | h) | h <;> (subst h; decide)

theorem matchDigits1_eq_some {d1 : Char} {r m : List Char}
    (h : matchDigits1 d1 r = some m) :
    ∃ m1, matchOptLetter r = some m1 ∧ m = d1 :: m1 := by
  rw [matchDigits1] at h
  cases hopt : matchOptLetter r with
  | some m1 =>
    rw [hopt] at h
    exact ⟨m1, rfl, (Option.some_injective _ h).symm⟩
  | none => rw [hopt] at h; cases h

theorem matchDigits1_isSome {d1 : Char} {r : List Char}
    (h : (matchOptLetter r).isSome = true) :
    (matchDigits1 d1 r).isSome = true := by
  obtain ⟨m1, hm1⟩ := Option.isSome_iff_exists.mp h
  rw [matchDigits1, hm1]
  rfl

theorem matchDigits_eq_some {cs m : List Char} (h : matchDigits cs = some m) :
    ∃ ds ol sp d a b rest, cs = ds ++ ol ++ sp ++ d :: a :: b :: rest ∧
      m = ds ++ ol ++ sp ++ [d, a, b] ∧
      1 ≤ ds.length ∧ ds.length ≤ 2 ∧ (∀ c ∈ ds, isDigitA c = true) ∧
      ol.length ≤ 1 ∧ (∀ c ∈ ol, isUpperA c = true) ∧
      (∀ c ∈ sp, isSpacePy c = true) ∧
      isDigitA d = true ∧ isUpperA a = true ∧ isUpperA b = true ∧
      bndHead rest = true := by
  match cs with
  | [] => exact absurd h (by simp [matchDigits])
  | [d1] =>
    rw [matchDigits] at h
    by_cases h1 : isDigitA d1 = true
    · rw [if_pos h1] at h
      obtain ⟨m1, hopt, rfl⟩ := matchDigits1_eq_some h
      obtain ⟨ol, sp, d, a, b, rest, habs, -⟩ := matchOptLetter_eq_some hopt
      exact absurd habs (by simp)
    · rw [if_neg h1] at h; cases h
  | d1 :: d2 :: rest2 =>
    rw [matchDigits] at h
    by_cases h1 : isDigitA d1 = true
    · rw [if_pos h1] at h
      by_cases h2 : isDigitA d2 = true
      · rw [if_pos h2] at h
        cases hopt : matchOptLetter rest2 with
        | some m1 =>
          rw [hopt] at h
          obtain rfl : d1 :: d2 :: m1 = m := Option.some_injective _ h
          obtain ⟨ol, sp, d, a, b, rest, hh1, hh2, holl, holu, hsp, hd, ha, hb, hr⟩ :=
            matchOptLetter_eq_some hopt
          refine ⟨[d1, d2], ol, sp, d, a, b, rest, by simp [hh1], by simp [hh2],
            by simp, by simp, ?_, holl, holu, hsp, hd, ha, hb, hr⟩
          intro c hc
          rcases List.mem_cons.mp hc with rfl | hc
          · exact h1
          · rw [List.mem_singleton.mp hc]; exact h2
        | none =>
          rw [hopt] at h
          obtain ⟨m1, hopt1, rfl⟩ := matchDigits1_eq_some h
          obtain ⟨ol, sp, d, a, b, rest, hh1, hh2, holl, holu, hsp, hd, ha, hb, hr⟩ :=
            matchOptLetter_eq_some hopt1
          refine ⟨[d1], ol, sp, d, a, b, rest, by simp [hh1], by simp [hh2],
            by simp, by simp, ?_, holl, holu, hsp, hd, ha, hb, hr⟩
          intro c hc
          rw [List.mem_singleton.mp hc]; exact h1
      · rw [if_neg h2] at h
        obtain ⟨m1, hopt1, rfl⟩ := matchDigits1_eq_some h
        obtain ⟨ol, sp, d, a, b, rest, hh1, hh2, holl, holu, hsp, hd, ha, hb, hr⟩ :=
          matchOptLetter_eq_some hopt1
        refine ⟨[d1], ol, sp, d, a, b, rest, by simp [hh1], by simp [hh2],
          by simp, by simp, ?_, holl, holu, hsp, hd, ha, hb, hr⟩
        intro c hc
        rw [List.mem_singleton.mp hc]; exact h1
    · rw [if_neg h1] at h; cases h

theorem matchDigits_comp {ds ol sp : List Char} {d a b : Char} {rest : List Char}
    (hds1 : 1 ≤ ds.length) (hds2 : ds.length ≤ 2)
    (hdsd : ∀ c ∈ ds, isDigitA c = true)
    (hol : ol.length ≤ 1) (holu : ∀ c ∈ ol, isUpperA c = true)
    (hsp : ∀ c ∈ sp, isSpacePy c = true)
    (hd : isDigitA d = true) (ha : isUpperA a = true) (hb : isUpperA b = true)
    (hr : bndHead rest = true) :
    (matchDigits (ds ++ ol ++ sp ++ d :: a :: b :: rest)).isSome = true := by
  have hbase : (matchOptLetter (ol ++ sp ++ d :: a :: b :: rest)).isSome = true :=
    matchOptLetter_comp hol holu hsp hd ha hb hr
  cases ds with
  | nil => exact absurd hds1 (by simp)
  | cons d1 ds2 =>
    have hd1 : isDigitA d1 = true := hdsd d1 (List.mem_cons_self _ _)
    cases ds2 with
    | cons d2 ds3 =>
      obtain rfl : ds3 = [] := by
        rw [List.length_cons, List.length_cons] at hds2
        exact List.length_eq_zero.mp (by omega)
      have hd2 : isDigitA d2 = true :=
        hdsd d2 (List.mem_cons_of_mem _ (List.mem_cons_self _ _))
      obtain ⟨mb, hmb⟩ := Option.isSome_iff_exists.mp hbase
      rw [show (d1 :: d2 :: ([] : List Char)) ++ ol ++ sp ++ d :: a :: b :: rest
          = d1 :: d2 :: (ol ++ sp ++ d :: a :: b :: rest) from by simp]
      rw [matchDigits, if_pos hd1, if_pos hd2, hmb]
      rfl
    | nil =>
      rw [show (d1 :: ([] : List Char)) ++ ol ++ sp ++ d :: a :: b :: rest
          = d1 :: (ol ++ sp ++ d :: a :: b :: rest) from by simp]
      cases ol with
      | cons c ol2 =>
        obtain rfl : ol2 = [] := by
          rw [List.length_cons] at hol
          exact List.length_eq_zero.mp (by omega)
        have hcd : isDigitA c = false :=
          upper_not_digit (holu c (List.mem_cons_self _ _))
        rw [show (c :: ([] : List Char)) ++ sp ++ d :: a :: b :: rest
            = c :: (sp ++ d :: a :: b :: rest) from by simp]
        rw [matchDigits, if_pos hd1, if_neg (by rw [hcd]; exact Bool.noConfusion)]
        refine matchDigits1_isSome ?_
        rw [show c :: (sp ++ d :: a :: b :: rest)
            = (c :: ([] : List Char)) ++ sp ++ d :: a :: b :: rest from by simp]
        exact hbase
      | nil =>
        rw [List.nil_append] at hbase ⊢
        cases sp with
        | cons s sp2 =>
          have hsd : isDigitA s = false :=
            space_not_digit (hsp s (List.mem_cons_self _ _))
          rw [show (s :: sp2) ++ d :: a :: b :: rest
              = s :: (sp2 ++ d :: a :: b :: rest) from rfl]
          rw [matchDigits, if_pos hd1, if_neg (by rw [hsd]; exact Bool.noConfusion)]
          refine matchDigits1_isSome ?_
          rw [show s :: (sp2 ++ d :: a :: b :: rest)
              = (s :: sp2) ++ d :: a :: b :: rest from rfl]
          exact hbase
        | nil =>
          rw [List.nil_append] at hbase ⊢
          rw [matchDigits, if_pos hd1, if_pos hd]
          cases hopt2 : matchOptLetter (a :: b :: rest) with
          | some m2 => rfl
          | none => exact matchDigits1_isSome hbase

theorem matchLetters1_eq_some {l1 : Char} {r m : List Char}
    (h : matchLetters1 l1 r = some m) :
    ∃ m1, matchDigits r = some m1 ∧ m = l1 :: m1 := by
  rw [matchLetters1] at h
  cases hopt : matchDigits r with
  | some m1 =>
    rw [hopt] at h
    exact ⟨m1, rfl, (Option.some_injective _ h).symm⟩
  | none => rw [hopt] at h; cases h

theorem matchLetters1_isSome {l1 : Char} {r : List Char}
    (h : (matchDigits r).isSome = true) :
    (matchLetters1 l1 r).isSome = true := by
  obtain ⟨m1, hm1⟩ := Option.isSome_iff_exists.mp h
  rw [matchLetters1, hm1]
  rfl

theorem matchLetters_eq_some {cs m : List Char} (h : matchLetters cs = some m) :
    ∃ ls ds ol sp d a b rest,
      cs = ls ++ ds ++ ol ++ sp ++ d :: a :: b :: rest ∧
      m = ls ++ ds ++ ol ++ sp ++ [d, a, b] ∧
      1 ≤ ls.length ∧ ls.length ≤ 2 ∧ (∀ c ∈ ls, isUpperA c = true) ∧
      1 ≤ ds.length ∧ ds.length ≤ 2 ∧ (∀ c ∈ ds, isDigitA c = true) ∧
      ol.length ≤ 1 ∧ (∀ c ∈ ol, isUpperA c = true) ∧
      (∀ c ∈ sp, isSpacePy c = true) ∧
      isDigitA d = true ∧ isUpperA a = true ∧ isUpperA b = true ∧
      bndHead rest = true := by
  match cs with
  | [] => exact absurd h (by simp [matchLetters])
  | [l1] => exact absurd h (by simp [matchLetters])
  | l1 :: l2 :: rest2 =>
    rw [matchLetters] at h
    by_cases h1 : isUpperA l1 = true
    · rw [if_pos h1] at h
      by_cases h2 : isUpperA l2 = true
      · rw [if_pos h2] at h
        cases hopt : matchDigits rest2 with
        | some m1 =>
          rw [hopt] at h
          obtain rfl : l1 :: l2 :: m1 = m := Option.some_injective _ h
          obtain ⟨ds, ol, sp, d, a, b, rest, hh1, hh2, hds1, hds2, hdsd,
            holl, holu, hsp, hd, ha, hb, hr⟩ := matchDigits_eq_some hopt
          refine ⟨[l1, l2], ds, ol, sp, d, a, b, rest, by simp [hh1], by simp [hh2],
            by simp, by simp, ?_, hds1, hds2, hdsd, holl, holu, hsp, hd, ha, hb, hr⟩
          intro c hc
          rcases List.mem_cons.mp hc with rfl | hc
          · exact h1
          · rw [List.mem_singleton.mp hc]; exact h2
        | none =>
          rw [hopt] at h
          obtain ⟨m1, hopt1, rfl⟩ := matchLetters1_eq_some h
          obtain ⟨ds, ol, sp, d, a, b, rest, hh1, hh2, hds1, hds2, hdsd,
            holl, holu, hsp, hd, ha, hb, hr⟩ := matchDigits_eq_some hopt1
          refine ⟨[l1], ds, ol, sp, d, a, b, rest, by simp [hh1], by simp [hh2],
            by simp, by simp, ?_, hds1, hds2, hdsd, holl, holu, hsp, hd, ha, hb, hr⟩
          intro c hc
          rw [List.mem_singleton.mp hc]; exact h1
      · rw [if_neg h2] at h
        obtain ⟨m1, hopt1, rfl⟩ := matchLetters1_eq_some h
        obtain ⟨ds, ol, sp, d, a, b, rest, hh1, hh2, hds1, hds2, hdsd,
          holl, holu, hsp, hd, ha, hb, hr⟩ := matchDigits_eq_some hopt1
        refine ⟨[l1], ds, ol, sp, d, a, b, rest, by simp [hh1], by simp [hh2],
          by simp, by simp, ?_, hds1, hds2, hdsd, holl, holu, hsp, hd, ha, hb, hr⟩
        intro c hc
        rw [List.mem_singleton.mp hc]; exact h1
    · rw [if_neg h1] at h; cases h

theorem matchLetters_comp {ls ds ol sp : List Char} {d a b : Char}
    {rest : List Char}
    (hls1 : 1 ≤ ls.length) (hls2 : ls.length ≤ 2)
    (hlsu : ∀ c ∈ ls, isUpperA c = true)
    (hds1 : 1 ≤ ds.length) (hds2 : ds.length ≤ 2)
    (hdsd : ∀ c ∈ ds, isDigitA c = true)
    (hol : ol.length ≤ 1) (holu : ∀ c ∈ ol, isUpperA c = true)
    (hsp : ∀ c ∈ sp, isSpacePy c = true)
    (hd : isDigitA d = true) (ha : isUpperA a = true) (hb : isUpperA b = true)
    (hr : bndHead rest = true) :
    (matchLetters (ls ++ ds ++ ol ++ sp ++ d :: a :: b :: rest)).isSome = true := by
  have hbase : (matchDigits (ds ++ ol ++ sp ++ d :: a :: b :: rest)).isSome = true :=
    matchDigits_comp hds1 hds2 hdsd hol holu hsp hd ha hb hr
  cases ls with
  | nil => exact absurd hls1 (by simp)
  | cons l1 ls2 =>
    have hl1 : isUpperA l1 = true := hlsu l1 (List.mem_cons_self _ _)
    cases ls2 with
    | cons l2 ls3 =>
      obtain rfl : ls3 = [] := by
        rw [List.length_cons, List.length_cons] at hls2
        exact List.length_eq_zero.mp (by omega)
      have hl2 : isUpperA l2 = true :=
        hlsu l2 (List.mem_cons_of_mem _ (List.mem_cons_self _ _))
      obtain ⟨mb, hmb⟩ := Option.isSome_iff_exists.mp hbase
      rw [show (l1 :: l2 :: ([] : List Char)) ++ ds ++ ol ++ sp ++ d :: a :: b :: rest
          = l1 :: l2 :: (ds ++ ol ++ sp ++ d :: a :: b :: rest) from by simp]
      rw [matchLetters, if_pos hl1, if_pos hl2, hmb]
      rfl
    | nil =>
      -- one letter; the next character is the first digit of `ds`
      cases ds with
      | nil => exact absurd hds1 (by simp)
      | cons e1 es =>
        have he1 : isDigitA e1 = true := hdsd e1 (List.mem_cons_self _ _)
        have he1u : isUpperA e1 = false := digitA_not_upper he1
        rw [show (l1 :: ([] : List Char)) ++ (e1 :: es) ++ ol ++ sp ++ d :: a :: b :: rest
            = l1 :: e1 :: (es ++ ol ++ sp ++ d :: a :: b :: rest) from by simp]
        rw [matchLetters, if_pos hl1, if_neg (by rw [he1u]; exact Bool.noConfusion)]
        refine matchLetters1_isSome ?_
        rw [show e1 :: (es ++ ol ++ sp ++ d :: a :: b :: rest)
            = (e1 :: es) ++ ol ++ sp ++ d :: a :: b :: rest from rfl]
        exact hbase

theorem prevCharAt_cons (prev : Option Char) (c : Char) (pre : List Char) :
    prevCharAt prev (c :: pre) = prevCharAt (some c) pre := by
  cases pre with
  | nil => rfl
  | cons x xs =>
    rw [prevCharAt, prevCharAt, List.getLast?_cons_cons]
    cases h : (x :: xs).getLast? with
    | some y => rfl
    | none =>
      rw [List.getLast?_eq_none_iff] at h
      cases h

theorem reSearch_some : ∀ {cs : List Char} {prev : Option Char} {m : List Char},
    reSearch prev cs = some m →
    ∃ pre rest, cs = pre ++ rest ∧ bndOk (prevCharAt prev pre) = true ∧
      matchLetters rest = some m ∧
      ∀ pre2 rest2, cs = pre2 ++ rest2 → pre2.length < pre.length →
        bndOk (prevCharAt prev pre2) = true → matchLetters rest2 = none := by
  intro cs
  induction cs with
  | nil =>
    intro prev m h
    exact absurd h (by simp [reSearch, matchLetters])
  | cons c rest0 ih =>
    intro prev m h
    rw [reSearch] at h
    by_cases hb : bndOk prev = true
    · rw [if_pos hb] at h
      cases hm : matchLetters (c :: rest0) with
      | some m1 =>
        rw [hm] at h
        obtain rfl : m1 = m := Option.some_injective _ h
        refine ⟨[], c :: rest0, rfl, hb, hm, ?_⟩
        intro pre2 rest2 _ hlen _
        exact absurd hlen (by simp)
      | none =>
        rw [hm] at h
        obtain ⟨pre1, rest1, heq, hbnd, hml, hmin⟩ := ih h
        refine ⟨c :: pre1, rest1, by rw [heq]; rfl, ?_, hml, ?_⟩
        · rw [prevCharAt_cons]; exact hbnd
        · intro pre2 rest2 heq2 hlen hbnd2
          cases pre2 with
          | nil =>
            obtain rfl : c :: rest0 = rest2 := heq2
            exact hm
          | cons c2 pre3 =>
            obtain ⟨rfl, heq3⟩ : c = c2 ∧ rest0 = pre3 ++ rest2 := by simpa using heq2
            refine hmin pre3 rest2 heq3 ?_ ?_
            · rw [List.length_cons, List.length_cons] at hlen
              omega
            · rw [prevCharAt_cons] at hbnd2
              exact hbnd2
    · rw [if_neg hb] at h
      obtain ⟨pre1, rest1, heq, hbnd, hml, hmin⟩ := ih h
      refine ⟨c :: pre1, rest1, by rw [heq]; rfl, ?_, hml, ?_⟩
      · rw [prevCharAt_cons]; exact hbnd
      · intro pre2 rest2 heq2 hlen hbnd2
        cases pre2 with
        | nil => exact absurd hbnd2 hb
        | cons c2 pre3 =>
          obtain ⟨rfl, heq3⟩ : c = c2 ∧ rest0 = pre3 ++ rest2 := by simpa using heq2
          refine hmin pre3 rest2 heq3 ?_ ?_
          · rw [List.length_cons, List.length_cons] at hlen
            omega
          · rw [prevCharAt_cons] at hbnd2
            exact hbnd2

theorem reSearch_none : ∀ {cs : List Char} {prev : Option Char},
    reSearch prev cs = none →
    ∀ pre rest, cs = pre ++ rest → bndOk (prevCharAt prev pre) = true →
      matchLetters rest = none := by
  intro cs
  induction cs with
  | nil =>
    intro prev _ pre rest heq _
    obtain ⟨rfl, rfl⟩ : pre = [] ∧ rest = [] := by simpa using heq.symm
    rfl
  | cons c rest0 ih =>
    intro prev h pre rest heq hbnd
    rw [reSearch] at h
    by_cases hb : bndOk prev = true
    · rw [if_pos hb] at h
      cases hm : matchLetters (c :: rest0) with
      | some m1 => rw [hm] at h; cases h
      | none =>
        rw [hm] at h
        cases pre with
        | nil =>
          obtain rfl : c :: rest0 = rest := heq
          exact hm
        | cons c2 pre2 =>
          obtain ⟨rfl, heq2⟩ : c = c2 ∧ rest0 = pre2 ++ rest := by simpa using heq
          refine ih h pre2 rest heq2 ?_
          rw [prevCharAt_cons] at hbnd
          exact hbnd
    · rw [if_neg hb] at h
      cases pre with
      | nil => exact absurd hbnd hb
      | cons c2 pre2 =>
        obtain ⟨rfl, heq2⟩ : c = c2 ∧ rest0 = pre2 ++ rest := by simpa using heq
        refine ih h pre2 rest heq2 ?_
        rw [prevCharAt_cons] at hbnd
        exact hbnd

theorem pyStrip_no_op {c : Char} {mid : List Char} {b : Char}
    (hc : isSpacePy c = false) (hb : isSpacePy b = false) :
    pyStrip (c :: (mid ++ [b])) = c :: (mid ++ [b]) := by
  rw [pyStrip]
  rw [List.dropWhile_cons]
  simp only [hc, Bool.false_eq_true, if_false]
  rw [show (c :: (mid ++ [b])).reverse = b :: (mid.reverse ++ [c]) from by simp]
  rw [List.dropWhile_cons]
  simp only [hb, Bool.false_eq_true, if_false]
  simp

theorem matchLetters_isSome_of_matchesHere {cs : List Char} (h : MatchesHere cs) :
    (matchLetters cs).isSome = true := by
  obtain ⟨ls, ds, ol, sp, d, a, b, rest, heq, hparts, hbnd⟩ := h
  obtain ⟨hls1, hls2, hlsu, hds1, hds2, hdsd, hol, holu, hsp, hd, ha, hb⟩ := hparts
  subst heq
  have hx := matchLetters_comp hls1 hls2 hlsu hds1 hds2 hdsd hol holu hsp hd ha hb
    ((bndHead_iff rest).mpr hbnd)
  simpa [List.append_assoc] using hx

/-- C8: `_extract_postcode` uppercases the address text and searches the
UK-postcode pattern.  Whenever it returns a value, that value has the
spec's shape (one-or-two letters, one-or-two digits, an optional letter,
whitespace, one digit, two letters), occurs as a substring of the
uppercased text at the position of the first pattern match (no earlier
position matches); whenever it returns absent, no position of the
uppercased text matches the pattern; and the scenario address yields
`"SE1 2AA"`. -/
theorem claim_C8 :
    (∀ (text r : String), extract_postcode text = some r →
      PostcodeShape r ∧
      ∃ pre post, (pyUpper text).data = pre ++ r.data ++ post ∧
        SpecMatchAt (pyUpper text).data pre.length ∧
        ∀ i < pre.length, ¬ SpecMatchAt (pyUpper text).data i) ∧
    (∀ text : String, extract_postcode text = none →
      ∀ i, ¬ SpecMatchAt (pyUpper text).data i) ∧
    extract_postcode "123 Tower Bridge Road, London SE1 2AA" = some "SE1 2AA" := by
  refine ⟨?_, ?_, rfl⟩
  · intro text r h
    rw [extract_postcode] at h
    by_cases he : pyEmpty text = true
    · rw [if_pos he] at h; cases h
    · rw [if_neg he] at h
      cases hs : reSearch none (pyUpper text).data with
      | none => rw [hs] at h; cases h
      | some m =>
        rw [hs] at h
        obtain rfl : String.mk (pyStrip m) = r := Option.some_injective _ h
        obtain ⟨pre, rest, hsplit, hbnd, hml, hmin⟩ := reSearch_some hs
        obtain ⟨ls, ds, ol, sp, d, a, b, rest2, hh1, hh2, hls1, hls2, hlsu,
          hds1, hds2, hdsd, holl, holu, hspl, hd, ha, hb, hr⟩ :=
          matchLetters_eq_some hml
        cases ls with
        | nil => exact absurd hls1 (by simp)
        | cons l1 ls2 =>
          have hl1 : isUpperA l1 = true := hlsu l1 (List.mem_cons_self _ _)
          have hshape : m = l1 :: ((ls2 ++ ds ++ ol ++ sp ++ [d, a]) ++ [b]) := by
            rw [hh2]; simp
          have hstrip : pyStrip m = m := by
            rw [hshape]
            exact pyStrip_no_op (upperA_not_space hl1) (upperA_not_space hb)
          have hrdata : (String.mk (pyStrip m)).data = m := by
            rw [show (String.mk (pyStrip m)).data = pyStrip m from rfl, hstrip]
          constructor
          · exact ⟨l1 :: ls2, ds, ol, sp, d, a, b, by rw [hrdata, hh2]; simp,
              hls1, hls2, hlsu, hds1, hds2, hdsd, holl, holu, hspl, hd, ha, hb⟩
          · refine ⟨pre, rest2, ?_, ⟨?_, ?_⟩, ?_⟩
            · rw [hsplit, hrdata, hh1, hh2]
              simp
            · rw [hsplit, List.take_left]
              exact hbnd
            · rw [hsplit, List.drop_left]
              exact ⟨l1 :: ls2, ds, ol, sp, d, a, b, rest2, by rw [hh1]; simp,
                ⟨hls1, hls2, hlsu, hds1, hds2, hdsd, holl, holu, hspl, hd, ha, hb⟩,
                (bndHead_iff rest2).mp hr⟩
            · intro i hi hspec
              obtain ⟨hbnd_i, hmh⟩ := hspec
              have hsplit_i : (pyUpper text).data
                  = (pyUpper text).data.take i ++ (pyUpper text).data.drop i :=
                (List.take_append_drop i _).symm
              have hlen_i : ((pyUpper text).data.take i).length = i := by
                rw [List.length_take]
                have hle : pre.length ≤ (pyUpper text).data.length := by
                  rw [hsplit, List.length_append]
                  omega
                omega
              have hnone := hmin _ _ hsplit_i (by rw [hlen_i]; exact hi) hbnd_i
              have hsome := matchLetters_isSome_of_matchesHere hmh
              rw [hnone] at hsome
              cases hsome
  · intro text h i hspec
    obtain ⟨hbnd_i, hmh⟩ := hspec
    rw [extract_postcode] at h
    by_cases he : pyEmpty text = true
    · have hdata : (pyUpper text).data = [] := by
        rw [show (pyUpper text).data = text.data.map Char.toUpper from rfl,
          List.isEmpty_iff.mp he]
        rfl
      rw [hdata] at hmh
      obtain ⟨ls, ds, ol, sp, d, a, b, rest2, habs, -⟩ := hmh
      rw [List.drop_nil] at habs
      exact absurd habs.symm (by simp)
    · rw [if_neg he] at h
      cases hs : reSearch none (pyUpper text).data with
      | some m => rw [hs] at h; cases h
      | none =>
        have hnone := reSearch_none hs _ _ (List.take_append_drop i _).symm hbnd_i
        have hsome := matchLetters_isSome_of_matchesHere hmh
        rw [hnone] at hsome
        cases hsome

/-- Witness for C8: the scenario address, run through the theorem. -/
theorem claim_C8_witness : PostcodeShape "SE1 2AA" :=
  (claim_C8.1 "123 Tower Bridge Road, London SE1 2AA" "SE1 2AA" claim_C8.2.2).1

end Zoopla
